import Mathlib

/-!
# Verification of the group-gifting server's core logic

Shallow embedding of `src/server.js` (ComeGiftIt gift-exchange app): JSON
values, the string sanitizer, group-document validation and sanitization,
the group CRUD endpoints over a key-value store, and the retention sweep.
The visibility filter, which the repository implements client-side, is
modelled from the spec where indicated.
-/

set_option maxRecDepth 20000

namespace GroupGifting

/-- A JavaScript runtime value as far as the server's data path is concerned:
the JSON values plus `undefined` (absent-property reads). Numbers are modelled
as integers; no claim depends on fractional values. -/
inductive JsVal where
  | null
  | undefined
  | bool (b : Bool)
  | num (n : Int)
  | str (s : String)
  | arr (elems : List JsVal)
  | obj (fields : List (String × JsVal))
deriving Repr

/-- `null` or `undefined`: the values on which a property access throws. -/
def nullish : JsVal → Bool
  | .null => true
  | .undefined => true
  | _ => false

/-- JavaScript truthiness (`NaN` is not modelled). -/
def truthy : JsVal → Bool
  | .null => false
  | .undefined => false
  | .bool b => b
  | .num n => n != 0
  | .str s => s != ""
  | .arr _ => true
  | .obj _ => true

/-- Parse a digit string (structurally, so that it reduces definitionally). -/
def digitsToNatAux : List Char → Nat → Option Nat
  | [], acc => some acc
  | c :: rest, acc =>
    if c.isDigit then digitsToNatAux rest (acc * 10 + (c.toNat - 48)) else none

/-- `Number`-style index parse of a key (only ever digit strings matter). -/
def strToNat? (s : String) : Option Nat :=
  match s.data with
  | [] => none
  | l => digitsToNatAux l 0

/-- Total property read: objects by key, arrays by numeric index
(as `Object.keys` produces); anything else yields `undefined`. -/
def index (v : JsVal) (k : String) : JsVal :=
  match v with
  | .obj fs => (fs.lookup k).getD .undefined
  | .arr xs => ((strToNat? k).bind fun i => xs.get? i).getD .undefined
  | _ => .undefined

/-- Property read with JavaScript's throwing behaviour: reading a property of
`null` or `undefined` raises a `TypeError`, modelled as `Except.error`. -/
def getF (v : JsVal) (k : String) : Except Unit JsVal :=
  if nullish v then .error () else .ok (index v k)

/-- `Object.keys`: own keys of an object, indices of an array, nothing else. -/
def objKeys : JsVal → List String
  | .obj fs => fs.map (·.1)
  | .arr xs => (List.range xs.length).map toString
  | _ => []

/-- `typeof v === 'object'` (true for objects, arrays and `null`). -/
def typeofObject : JsVal → Bool
  | .obj _ => true
  | .arr _ => true
  | .null => true
  | _ => false

def isStr : JsVal → Bool
  | .str _ => true
  | _ => false

def isArr : JsVal → Bool
  | .arr _ => true
  | _ => false

/-- `.length` of a string value (only ever used behind an `isStr` guard). -/
def strLen : JsVal → Nat
  | .str s => s.length
  | _ => 0

mutual
/-- JavaScript `String(v)` coercion for the values that can occur here. -/
def jsToString : JsVal → String
  | .null => "null"
  | .undefined => "undefined"
  | .bool b => if b then "true" else "false"
  | .num n => toString n
  | .str s => s
  | .arr xs => jsToStringList xs
  | .obj _ => "[object Object]"

/-- `Array.prototype.toString`: elements joined by commas, with `null` and
`undefined` elements rendered as the empty string. -/
def jsToStringList : List JsVal → String
  | [] => ""
  | [x] => if nullish x then "" else jsToString x
  | x :: xs => (if nullish x then "" else jsToString x) ++ "," ++ jsToStringList xs
end

/-! ## The string sanitizer (`sanitizeString`, server.js lines 149-162) -/

/-- The characters removed by `replace(/[<>\"\']/g, '')`. -/
def badChar (c : Char) : Bool :=
  c = '<' || c = '>' || c = Char.ofNat 34 || c = Char.ofNat 39

/-- Whitespace as trimmed by `String.prototype.trim` (ASCII part; the Unicode
whitespace JS also trims never occurs in this development). -/
def jsWs (c : Char) : Bool :=
  c = ' ' || c = Char.ofNat 9 || c = Char.ofNat 10 || c = Char.ofNat 13 ||
    c = Char.ofNat 11 || c = Char.ofNat 12

/-- Scan forward to just past the first `>`, if any. -/
def dropThroughGt : List Char → Option (List Char)
  | [] => none
  | c :: rest => if c = '>' then some rest else dropThroughGt rest

theorem dropThroughGt_length {l after : List Char}
    (h : dropThroughGt l = some after) : after.length < l.length := by
  induction l with
  | nil => simp [dropThroughGt] at h
  | cons c rest ih =>
    rw [dropThroughGt] at h
    have hlen : (c :: rest).length = rest.length + 1 := List.length_cons c rest
    by_cases hc : c = '>'
    · simp [hc] at h
      subst h
      omega
    · simp [hc] at h
      have := ih h
      omega

/-- Fuel-indexed body of `removeTags`: structural on the fuel so that it
reduces definitionally; each step consumes at least one character, so fuel
equal to the length is always enough. -/
def removeTagsFuel : Nat → List Char → List Char
  | 0, l => l
  | _ + 1, [] => []
  | fuel + 1, c :: rest =>
    if c = '<' then
      match dropThroughGt rest with
      | some after => removeTagsFuel fuel after
      | none => c :: rest
    else c :: removeTagsFuel fuel rest

/-- `replace(/<[^>]*>/g, '')`: each match runs from a `<` through the first
following `>`; a `<` with no later `>` matches nothing. -/
def removeTags (l : List Char) : List Char := removeTagsFuel l.length l

/-- `replace(/[<>\"\']/g, '')`. -/
def removeBad (l : List Char) : List Char := l.filter (fun c => !badChar c)

/-- Leading-whitespace removal. -/
def trimLeft (l : List Char) : List Char := l.dropWhile jsWs

/-- Trailing-whitespace removal. -/
def trimRight : List Char → List Char
  | [] => []
  | c :: rest =>
    match trimRight rest with
    | [] => if jsWs c then [] else [c]
    | r => c :: r

/-- `String.prototype.trim`. -/
def jsTrim (l : List Char) : List Char := trimRight (trimLeft l)

/-- The character-level body of `sanitizeString`: strip tags, strip dangerous
characters, trim, and truncate to `maxLength`. -/
def sanitizeCore (l : List Char) (maxLength : Nat) : List Char :=
  (jsTrim (removeBad (removeTags l))).take maxLength

/-- `sanitizeString(str, maxLength)` (server.js lines 149-162): non-strings
become `''`. -/
def sanitizeString (v : JsVal) (maxLength : Nat) : String :=
  match v with
  | .str s => ⟨sanitizeCore s.data maxLength⟩
  | _ => ""

/-! ## The validator (`validateGroupData`, server.js lines 165-233) -/

/-- The fixed holiday enumeration. -/
def validHolidays : List String :=
  ["Christmas", "Birthday", "Hanukkah", "Anniversary", "Other"]

/-- `validHolidays.includes(v)`: only equal strings match. -/
def isHoliday (v : JsVal) : Bool :=
  match v with
  | .str s => validHolidays.contains s
  | _ => false

/-- `['high','medium','low'].includes(v)`. -/
def isPriorityVal (v : JsVal) : Bool :=
  match v with
  | .str s => s = "high" || s = "medium" || s = "low"
  | _ => false

/-- Models `validator.isISO8601` from the external `validator` library: it
asserts its argument is a string (throwing a `TypeError` otherwise).  The
exact date grammar is irrelevant to every claim (all inputs used in theorems
leave `eventDate` absent), so the string case is approximated by a simple
shape check. -/
def isISO8601 (v : JsVal) : Except Unit Bool :=
  match v with
  | .str s =>
    .ok (s ≠ "" && s.data.all fun c =>
      c.isDigit || c = '-' || c = ':' || c = 'T' || c = 'Z' || c = '.' || c = '+')
  | _ => .error ()

/-- Sequential error accumulation of a `for`-loop that pushes onto a shared
`errors` array, propagating a thrown exception. -/
def collectM (f : α → Except Unit (List String)) : List α → Except Unit (List String)
  | [] => .ok []
  | a :: as =>
    match f a with
    | .error e => .error e
    | .ok es =>
      match collectM f as with
      | .error e => .error e
      | .ok rest => .ok (es ++ rest)

/-- The per-item checks of `validateGroupData` (server.js lines 208-227).
Every property access on the item throws exactly when the item is
`null`/`undefined`, so the throw is hoisted to one leading test. -/
def itemErrors (username : String) (item : JsVal) : Except Unit (List String) :=
  if nullish item then .error () else
    let d := index item "description"
    let it := index item "item"
    let nm := index item "name"
    let itemName := if truthy d then d else if truthy it then it
      else if truthy nm then nm else .str ""
    let e1 :=
      if !truthy itemName || !isStr itemName then
        ["Item missing description for user: " ++ username]
      else if strLen itemName > 500 then
        ["Item description too long for user: " ++ username]
      else []
    let det := index item "details"
    let e2 :=
      if truthy det && isStr det && strLen det > 1000 then
        ["Item details too long for user: " ++ username]
      else []
    let no := index item "notes"
    let e3 :=
      if truthy no && isStr no && strLen no > 1000 then
        ["Item notes too long for user: " ++ username]
      else []
    let cb := index item "claimedBy"
    let e4 :=
      if truthy cb && !isArr cb then
        ["claimedBy must be an array for user: " ++ username]
      else []
    .ok (e1 ++ e2 ++ e3 ++ e4)

/-- The per-user checks of `validateGroupData` (server.js lines 196-229);
`user.items` throws exactly when the user entry is `null`/`undefined`. -/
def userErrors (username : String) (user : JsVal) : Except Unit (List String) :=
  let e0 := if username.length > 100 then ["Username too long: " ++ username] else []
  if nullish user then .error () else
    match index user "items" with
    | .arr l =>
      if l.length > 100 then
        .ok (e0 ++ ["Too many items for user " ++ username ++ " (max 100)"])
      else
        match collectM (itemErrors username) l with
        | .error e => .error e
        | .ok es => .ok (e0 ++ es)
    | _ => .ok (e0 ++ ["Invalid items for user: " ++ username])

/-- The event-date check of `validateGroupData` (server.js lines 182-184):
skipped for a falsy value, throwing for a truthy non-string (the external
library asserts a string). -/
def dateErrors (ed : JsVal) : Except Unit (List String) :=
  if truthy ed then
    match isISO8601 ed with
    | .error e => .error e
    | .ok dateOk => .ok (if !dateOk then ["Invalid event date format"] else [])
  else .ok []

/-- The `users` checks of `validateGroupData` (server.js lines 187-230):
anything that is not a plain object is a single error; otherwise the user
count and per-user checks run. -/
def usersErrors (us : JsVal) : Except Unit (List String) :=
  match us with
  | .obj fs =>
    let eCount := if fs.length > 50 then ["Too many users (max 50)"] else []
    match collectM (fun p => userErrors p.1 p.2) fs with
    | .error e => .error e
    | .ok es => .ok (eCount ++ es)
  | _ => .ok ["Users must be an object"]

/-- `validateGroupData(data)` (server.js lines 165-233).  Returns the list of
error messages, or `Except.error` where the JavaScript code throws a
`TypeError` (property access on `null`/`undefined`, or `validator.isISO8601`
applied to a truthy non-string). -/
def validateGroupData (data : JsVal) : Except Unit (List String) :=
  if nullish data then .error () else
    let gn := index data "groupName"
    let e1 :=
      if !truthy gn || !isStr gn then ["Group name is required"]
      else if strLen gn > 100 then ["Group name too long (max 100 characters)"]
      else []
    let hol := index data "holiday"
    let e2 := if truthy hol && !isHoliday hol then ["Invalid holiday type"] else []
    match dateErrors (index data "eventDate") with
    | .error e => .error e
    | .ok e3 =>
      match usersErrors (index data "users") with
      | .error e => .error e
      | .ok e4 => .ok (e1 ++ e2 ++ e3 ++ e4)

/-! ## The sanitizer (`sanitizeGroupData`, server.js lines 236-279) -/

/-- `item.description || item.item || item.name || ''` (the legacy name
aliases accepted by the sanitizer and validator). -/
def rawItemName (item : JsVal) : JsVal :=
  if truthy (index item "description") then index item "description"
  else if truthy (index item "item") then index item "item"
  else if truthy (index item "name") then index item "name"
  else .str ""

/-- `item.priority && ['high','medium','low'].includes(...) ? ... : 'medium'`. -/
def sanPriority (pri : JsVal) : JsVal :=
  if truthy pri && isPriorityVal pri then pri else .str "medium"

/-- `item.price ? sanitizeString(String(item.price), 20) : ''`. -/
def sanPrice (price : JsVal) : JsVal :=
  if truthy price then .str (sanitizeString (.str (jsToString price)) 20)
  else .str ""

/-- `v ? sanitizeString(v, n) : ''` (notes, details). -/
def sanOptStr (v : JsVal) (n : Nat) : JsVal :=
  if truthy v then .str (sanitizeString v n) else .str ""

/-- `Array.isArray(v) ? v.slice(0,10).map(name => sanitizeString(name, 100)) : []`. -/
def sanNameList (v : JsVal) : JsVal :=
  match v with
  | .arr l => .arr ((l.take 10).map fun n => .str (sanitizeString n 100))
  | _ => .arr []

/-- The object literal built for one item by `sanitizeGroupData`
(server.js lines 257-272). -/
def sanitizedItem (item : JsVal) : JsVal :=
  .obj [
    ("description", .str (sanitizeString (rawItemName item) 500)),
    ("priority", sanPriority (index item "priority")),
    ("price", sanPrice (index item "price")),
    ("notes", sanOptStr (index item "notes") 1000),
    ("details", sanOptStr (index item "details") 1000),
    ("claimedBy", sanNameList (index item "claimedBy")),
    ("purchased", .bool (truthy (index item "purchased"))),
    ("splitWith", sanNameList (index item "splitWith"))]

/-- The per-item allow-listed rebuild; any property access throws exactly
when the item is `null`/`undefined`. -/
def sanitizeItem (item : JsVal) : Except Unit JsVal :=
  if nullish item then .error () else .ok (sanitizedItem item)

/-- Except-valued `map` over a list, mirroring `Array.prototype.map` whose
callback may throw. -/
def mapExcept (f : JsVal → Except Unit JsVal) : List JsVal → Except Unit (List JsVal)
  | [] => .ok []
  | a :: as =>
    match f a with
    | .error e => .error e
    | .ok b =>
      match mapExcept f as with
      | .error e => .error e
      | .ok bs => .ok (b :: bs)

/-- Assignment `o[k] = v` on a JavaScript object: replaces an existing key in
place, otherwise appends. -/
def objInsert (fs : List (String × JsVal)) (k : String) (v : JsVal) :
    List (String × JsVal) :=
  match fs with
  | [] => [(k, v)]
  | (k', v') :: rest =>
    if k' = k then (k, v) :: rest else (k', v') :: objInsert rest k v

/-- The `for (const username of usernames)` loop of `sanitizeGroupData`
(server.js lines 251-275), building `sanitized.users`; the `user.items` read
throws exactly when the user entry is `null`/`undefined`. -/
def sanitizeUsersLoop (usersVal : JsVal) :
    List String → List (String × JsVal) → Except Unit (List (String × JsVal))
  | [], acc => .ok acc
  | uname :: rest, acc =>
    let user := index usersVal uname
    let cleanName := sanitizeString (.str uname) 100
    if nullish user then .error () else
      match index user "items" with
      | .arr l =>
        match mapExcept sanitizeItem (l.take 100) with
        | .error e => .error e
        | .ok itemsOut =>
          sanitizeUsersLoop usersVal rest
            (objInsert acc cleanName (.obj [("items", .arr itemsOut)]))
      | _ =>
        sanitizeUsersLoop usersVal rest
          (objInsert acc cleanName (.obj [("items", .arr [])]))

/-- Build the sanitized document from the already-read top-level fields and
the rebuilt `users` entries (the object literal of server.js lines 237-245).
-/
def sanHoliday (hol : JsVal) : JsVal :=
  if truthy hol && isHoliday hol then hol else .str "Christmas"

def sanEventDate (ed : JsVal) : JsVal := if truthy ed then ed else .str ""

def sanCreatedBy (cb : JsVal) : JsVal :=
  if truthy cb then .str (sanitizeString cb 100) else .str ""

def sanitizedDoc (gn hol ed cb : JsVal) (usersOut : List (String × JsVal)) : JsVal :=
  .obj [
    ("groupName", .str (sanitizeString gn 100)),
    ("holiday", sanHoliday hol),
    ("eventDate", sanEventDate ed),
    ("createdBy", sanCreatedBy cb),
    ("users", .obj usersOut)]

/-- `sanitizeGroupData(data)` (server.js lines 236-279).  `Except.error` marks
the inputs on which the JavaScript code throws; note that `eventDate` is
passed through unsanitized (`data.eventDate || ''`). -/
def sanitizeGroupData (data : JsVal) : Except Unit JsVal :=
  if nullish data then .error () else
    let gn := index data "groupName"
    let hol := index data "holiday"
    let ed := index data "eventDate"
    let cb := index data "createdBy"
    let us := index data "users"
    if truthy us && typeofObject us then
      match sanitizeUsersLoop us ((objKeys us).take 50) [] with
      | .error e => .error e
      | .ok usersOut => .ok (sanitizedDoc gn hol ed cb usersOut)
    else .ok (sanitizedDoc gn hol ed cb [])

/-! ## Serialized size (`JSON.stringify(v).length`) -/

/-- UTF-16 length contributed by one character of a JSON-escaped string. -/
def escLen (c : Char) : Nat :=
  if c = Char.ofNat 34 || c = Char.ofNat 92 then 2
  else if c = Char.ofNat 8 || c = Char.ofNat 9 || c = Char.ofNat 10 ||
    c = Char.ofNat 12 || c = Char.ofNat 13 then 2
  else if c.toNat < 32 then 6
  else if c.toNat ≥ 65536 then 2
  else 1

def escSum (l : List Char) : Nat := (l.map escLen).sum

/-- `JSON.stringify(s).length` for a string. -/
def strJsonSize (s : String) : Nat := 2 + escSum s.data

mutual
/-- `JSON.stringify(v).length` (no spacing).  `undefined` cannot occur inside
a parsed-JSON document; it is given the size of `null` for totality. -/
def jsonSize : JsVal → Nat
  | .null => 4
  | .undefined => 4
  | .bool b => if b then 4 else 5
  | .num n => (toString n).length
  | .str s => strJsonSize s
  | .arr xs => 2 + jsonSizeList xs
  | .obj fs => 2 + jsonSizeFields fs

/-- Comma-separated element sizes. -/
def jsonSizeList : List JsVal → Nat
  | [] => 0
  | [x] => jsonSize x
  | x :: y :: xs => jsonSize x + 1 + jsonSizeList (y :: xs)

/-- Comma-separated `"key":value` sizes. -/
def jsonSizeFields : List (String × JsVal) → Nat
  | [] => 0
  | [(k, v)] => strJsonSize k + 1 + jsonSize v
  | (k, v) :: f :: fs => strJsonSize k + 1 + jsonSize v + 1 + jsonSizeFields (f :: fs)
end

/-! ## The Document Store and the group endpoints (server.js lines 299-419) -/

/-- One row of the `groups` table. -/
structure Row where
  data : JsVal
  updatedAt : Int
deriving Repr

/-- The `groups` table: `group_id` is the primary key. -/
abbrev Store := List (String × Row)

/-- One character of the `/^[a-zA-Z0-9-_]+$/` class. -/
def allowedIdChar (c : Char) : Bool :=
  c.isAlpha || c.isDigit || c = '-' || c = '_'

/-- The guard `!groupId || groupId.length > 255 || !/^[a-zA-Z0-9-_]+$/.test(groupId)`
shared by the GET, POST and DELETE handlers. -/
def invalidGroupId (s : String) : Bool :=
  s = "" || s.length > 255 || !(s ≠ "" && s.data.all allowedIdChar)

/-- The JSON responses the three group endpoints can produce. -/
inductive ApiResp where
  /-- `{success:true, data}` with `data` either `null` or the document. -/
  | okData (data : Option JsVal)
  /-- `{success:true, message}`. -/
  | okMsg (msg : String)
  /-- HTTP 400 `{success:false, message}`. -/
  | badRequest (msg : String)
  /-- HTTP 400 `{success:false, message:'Validation failed', errors}`. -/
  | validationFailed (errors : List String)
  /-- HTTP 500 `{success:false, message}` from the `catch` block. -/
  | serverError (msg : String)
deriving Repr

/-- `GET /api/groups/:groupId` (server.js lines 299-328): id check, fetch,
`data:null` when absent, otherwise the raw stored document. -/
def getGroup (store : Store) (gid : String) : ApiResp :=
  if invalidGroupId gid then .badRequest "Invalid group ID format"
  else
    match store.lookup gid with
    | none => .okData none
    | some row => .okData (some row.data)

/-- `POST /api/groups/:groupId` (server.js lines 331-395): id check, validate,
sanitize, then upsert with a fresh `updated_at`.  The current code has no
serialized-size check. -/
def postGroup (store : Store) (gid : String) (body : JsVal) (now : Int) :
    ApiResp × Store :=
  if invalidGroupId gid then (.badRequest "Invalid group ID format", store)
  else
    match validateGroupData body with
    | .error _ => (.serverError "Error saving group data", store)
    | .ok errs =>
      if errs.length > 0 then (.validationFailed errs, store)
      else
        match sanitizeGroupData body with
        | .error _ => (.serverError "Error saving group data", store)
        | .ok clean =>
          match store.lookup gid with
          | none =>
            (.okMsg "Group created successfully",
              store ++ [(gid, ⟨clean, now⟩)])
          | some _ =>
            (.okMsg "Group updated successfully",
              store.map fun p => if p.1 = gid then (p.1, ⟨clean, now⟩) else p)

/-- `DELETE /api/groups/:groupId` (server.js lines 398-419): id check, then
`DELETE FROM groups WHERE group_id = $1` and an unconditional success
response — the handler never inspects whether a row existed. -/
def deleteGroup (store : Store) (gid : String) : ApiResp × Store :=
  if invalidGroupId gid then (.badRequest "Invalid group ID format", store)
  else (.okMsg "Group deleted successfully", store.filter fun p => p.1 ≠ gid)

/-- `updated_at < NOW() - maxAge`: the row is strictly older than `maxAge`. -/
def expiredRow (now maxAge : Int) (r : Row) : Bool := r.updatedAt < now - maxAge

/-- `DELETE FROM groups WHERE updated_at < NOW() - INTERVAL '2 years'`
(server.js lines 672-683 and 693-705), parameterized by the retention age:
returns `rowCount` and the remaining table. -/
def sweepExpired (store : Store) (now maxAge : Int) : Nat × Store :=
  ((store.filter fun p => expiredRow now maxAge p.2).length,
    store.filter fun p => !expiredRow now maxAge p.2)

/-! ## The Visibility Filter (modelled from the spec)

The repository implements owner-blind viewing in its browser front end
(`christmas-gift-exchange.html`, not under `src/`); the server's GET handler
returns the raw document.  The filter below is modelled from the spec's
contract for the Group Service `get` operation. -/

/-- Rewrite the values of an association list, each as a function of its own
key and old value (keys and order are preserved). -/
def mapValues (g : String → JsVal → JsVal) (fs : List (String × JsVal)) :
    List (String × JsVal) :=
  fs.map fun p => (p.1, g p.1 p.2)

/-- Modelled from the spec: suppress the claim fields of one item — the code
performing this lives in the front-end HTML, which is not under `src/`.
`claimedBy` and `splitWith` become empty sets, `purchased` becomes false. -/
def suppressItem (item : JsVal) : JsVal :=
  match item with
  | .obj fs => .obj (mapValues (fun k v =>
      if k = "claimedBy" then .arr []
      else if k = "splitWith" then .arr []
      else if k = "purchased" then .bool false
      else v) fs)
  | v => v

/-- Modelled from the spec: suppress the claim fields of every item of one
member's wishlist. -/
def suppressWishlist (w : JsVal) : JsVal :=
  match w with
  | .obj fs => .obj (mapValues (fun k v =>
      if k = "items" then
        match v with
        | .arr l => .arr (l.map suppressItem)
        | v' => v'
      else v) fs)
  | v => v

/-- Modelled from the spec: the Visibility Filter — the requesting member's
own wishlist has its claim fields suppressed, every other member's wishlist
is left untouched. -/
def filterForMember (member : String) (doc : JsVal) : JsVal :=
  match doc with
  | .obj fs => .obj (mapValues (fun k v =>
      if k = "users" then
        match v with
        | .obj us => .obj (mapValues (fun k' v' =>
            if k' = member then suppressWishlist v' else v') us)
        | v' => v'
      else v) fs)
  | v => v

/-- Modelled from the spec: `get(groupId, requestingMember)` of the Group
Service — fetch the stored document, apply the Visibility Filter for the
requesting member (`none` = creator/admin observer access, which bypasses the
filter), and leave the store untouched. -/
def getGroupView (store : Store) (gid : String) (member : Option String) :
    ApiResp × Store :=
  match getGroup store gid with
  | .okData (some d) =>
    (.okData (some (match member with
      | some m => filterForMember m d
      | none => d)), store)
  | r => (r, store)

/-! ## Statement helpers -/

/-- The entries of a document's `users` mapping (empty for any other shape). -/
def usersEntriesOf (v : JsVal) : List (String × JsVal) :=
  match index v "users" with
  | .obj fs => fs
  | _ => []

/-- The elements of a user's `items` array (empty for any other shape). -/
def itemsListOf (u : JsVal) : List JsVal :=
  match index u "items" with
  | .arr l => l
  | _ => []

/-- The own keys of an object value, in order. -/
def topKeys (v : JsVal) : List String :=
  match v with
  | .obj fs => fs.map (·.1)
  | _ => []

/-- Project a string value (used to compare specific fields of documents). -/
def asStr : JsVal → String
  | .str s => s
  | _ => ""

/-- An item whose claim fields are empty or absent, as the spec's Visibility
Filter contract requires for the requesting member's own items. -/
def itemSuppressed (i : JsVal) : Prop :=
  (index i "claimedBy" = .arr [] ∨ index i "claimedBy" = .undefined) ∧
  (index i "purchased" = .bool false ∨ index i "purchased" = .undefined) ∧
  (index i "splitWith" = .arr [] ∨ index i "splitWith" = .undefined)

/-! ## Lemmas about association-list reads -/

theorem lookup_mapValues (g : String → JsVal → JsVal) (fs : List (String × JsVal))
    (k : String) :
    ((mapValues g fs).lookup k) = (fs.lookup k).map (g k) := by
  induction fs with
  | nil => simp [mapValues, List.lookup]
  | cons p rest ih =>
    by_cases h : k = p.1
    · simp [mapValues, List.lookup, h]
    · have hb : (k == p.1) = false := by
        simp [h]
      simpa [mapValues, List.lookup, hb] using ih

theorem index_obj (fs : List (String × JsVal)) (k : String) :
    index (.obj fs) k = (fs.lookup k).getD .undefined := rfl

theorem length_filter_add_length_filter_not (p : α → Bool) (l : List α) :
    (l.filter p).length + (l.filter fun a => !p a).length = l.length := by
  induction l with
  | nil => simp
  | cons a rest ih =>
    by_cases h : p a = true <;> simp [List.filter, h] <;> omega

/-! ## Visibility-filter lemmas -/

theorem suppressItem_suppressed (i : JsVal) : itemSuppressed (suppressItem i) := by
  cases i with
  | obj fs =>
    refine ⟨?_, ?_, ?_⟩ <;>
    · rw [suppressItem, index_obj, lookup_mapValues]
      cases fs.lookup "claimedBy" <;> cases fs.lookup "purchased" <;>
        cases fs.lookup "splitWith" <;> simp
  | null => exact ⟨Or.inr rfl, Or.inr rfl, Or.inr rfl⟩
  | undefined => exact ⟨Or.inr rfl, Or.inr rfl, Or.inr rfl⟩
  | bool b => exact ⟨Or.inr rfl, Or.inr rfl, Or.inr rfl⟩
  | num n => exact ⟨Or.inr rfl, Or.inr rfl, Or.inr rfl⟩
  | str s => exact ⟨Or.inr rfl, Or.inr rfl, Or.inr rfl⟩
  | arr xs => exact ⟨Or.inr rfl, Or.inr rfl, Or.inr rfl⟩

theorem itemsListOf_suppressWishlist (w : JsVal) :
    itemsListOf (suppressWishlist w) = (itemsListOf w).map suppressItem := by
  cases w with
  | obj ws =>
    rw [suppressWishlist]
    show itemsListOf (.obj (mapValues _ ws)) = _
    rw [itemsListOf, itemsListOf, index_obj, index_obj, lookup_mapValues]
    cases h : ws.lookup "items" with
    | none => simp
    | some v => cases v <;> simp
  | null => rfl
  | undefined => rfl
  | bool b => rfl
  | num n => rfl
  | str s => rfl
  | arr xs => rfl

/-- C1. Modelled from the spec (the filter is implemented in the front-end
HTML, outside `src/`): for a stored document with member `m` in its `users`
mapping, `get(groupId, m)` leaves the store untouched, returns the filtered
view, suppresses `claimedBy`/`purchased`/`splitWith` on every item of `m`'s
own wishlist, and leaves every other member's wishlist entry unchanged. -/
theorem C1_visibility_filter (store : Store) (gid m : String) (row : Row)
    (us : List (String × JsVal)) (w : JsVal)
    (hid : invalidGroupId gid = false)
    (hlook : store.lookup gid = some row)
    (hus : index row.data "users" = .obj us)
    (hm : us.lookup m = some w) :
    (getGroupView store gid (some m)).2 = store ∧
    (getGroupView store gid (some m)).1 =
      .okData (some (filterForMember m row.data)) ∧
    (usersEntriesOf (filterForMember m row.data)).lookup m
      = some (suppressWishlist w) ∧
    (∀ item ∈ itemsListOf (suppressWishlist w), itemSuppressed item) ∧
    (∀ n, n ≠ m → (usersEntriesOf (filterForMember m row.data)).lookup n
      = us.lookup n) := by
  have hget : getGroup store gid = .okData (some row.data) := by
    simp [getGroup, hid, hlook]
  refine ⟨?_, ?_, ?_, ?_, ?_⟩
  · simp [getGroupView, hget]
  · simp [getGroupView, hget]
  · cases hd : row.data with
    | obj fs =>
      rw [hd, index_obj] at hus
      cases hl : fs.lookup "users" with
      | none => rw [hl] at hus; cases hus
      | some v =>
        rw [hl] at hus
        simp at hus
        subst hus
        rw [filterForMember, usersEntriesOf, index_obj, lookup_mapValues, hl]
        simp [lookup_mapValues, hm]
    | null => rw [hd] at hus; cases hus
    | undefined => rw [hd] at hus; cases hus
    | bool b => rw [hd] at hus; cases hus
    | num n => rw [hd] at hus; cases hus
    | str s => rw [hd] at hus; cases hus
    | arr xs =>
      rw [hd] at hus
      have : index (.arr xs) "users" = .undefined := rfl
      rw [this] at hus; cases hus
  · intro item hitem
    rw [itemsListOf_suppressWishlist] at hitem
    obtain ⟨i0, _, hi0⟩ := List.mem_map.mp hitem
    rw [← hi0]
    exact suppressItem_suppressed i0
  · intro n hn
    cases hd : row.data with
    | obj fs =>
      rw [hd, index_obj] at hus
      cases hl : fs.lookup "users" with
      | none => rw [hl] at hus; cases hus
      | some v =>
        rw [hl] at hus
        simp at hus
        subst hus
        rw [filterForMember, usersEntriesOf, index_obj, lookup_mapValues, hl]
        simp only [Option.map_some]
        show (mapValues _ us).lookup n = _
        rw [lookup_mapValues]
        simp [hn]
    | null => rw [hd] at hus; cases hus
    | undefined => rw [hd] at hus; cases hus
    | bool b => rw [hd] at hus; cases hus
    | num n => rw [hd] at hus; cases hus
    | str s => rw [hd] at hus; cases hus
    | arr xs =>
      rw [hd] at hus
      have : index (.arr xs) "users" = .undefined := rfl
      rw [this] at hus; cases hus

/-- Witness for C1 at a concrete store: Ann's own item has its claim fields
suppressed while Bob's wishlist entry is untouched. -/
theorem C1_visibility_filter_witness :
    (getGroupView [("fam", ⟨.obj [("users", .obj [("Ann", .obj [("items",
      .arr [.obj [("description", .str "Socks"), ("claimedBy", .arr [.str "Bob"]),
        ("purchased", .bool true), ("splitWith", .arr [])]])]),
      ("Bob", .obj [("items", .arr [])])])], 0⟩)] "fam" (some "Ann")).2
      = [("fam", ⟨.obj [("users", .obj [("Ann", .obj [("items",
      .arr [.obj [("description", .str "Socks"), ("claimedBy", .arr [.str "Bob"]),
        ("purchased", .bool true), ("splitWith", .arr [])]])]),
      ("Bob", .obj [("items", .arr [])])])], 0⟩)] ∧
    (usersEntriesOf (filterForMember "Ann" (.obj [("users", .obj [("Ann",
      .obj [("items", .arr [.obj [("description", .str "Socks"),
        ("claimedBy", .arr [.str "Bob"]), ("purchased", .bool true),
        ("splitWith", .arr [])]])]), ("Bob", .obj [("items", .arr [])])])]))).lookup
      "Ann" = some (suppressWishlist (.obj [("items", .arr [.obj
      [("description", .str "Socks"), ("claimedBy", .arr [.str "Bob"]),
        ("purchased", .bool true), ("splitWith", .arr [])]])])) := by
  have h := C1_visibility_filter
    [("fam", ⟨.obj [("users", .obj [("Ann", .obj [("items",
      .arr [.obj [("description", .str "Socks"), ("claimedBy", .arr [.str "Bob"]),
        ("purchased", .bool true), ("splitWith", .arr [])]])]),
      ("Bob", .obj [("items", .arr [])])])], 0⟩)]
    "fam" "Ann"
    ⟨.obj [("users", .obj [("Ann", .obj [("items",
      .arr [.obj [("description", .str "Socks"), ("claimedBy", .arr [.str "Bob"]),
        ("purchased", .bool true), ("splitWith", .arr [])]])]),
      ("Bob", .obj [("items", .arr [])])])], 0⟩
    [("Ann", .obj [("items", .arr [.obj [("description", .str "Socks"),
      ("claimedBy", .arr [.str "Bob"]), ("purchased", .bool true),
      ("splitWith", .arr [])]])]), ("Bob", .obj [("items", .arr [])])]
    (.obj [("items", .arr [.obj [("description", .str "Socks"),
      ("claimedBy", .arr [.str "Bob"]), ("purchased", .bool true),
      ("splitWith", .arr [])]])])
    rfl rfl rfl rfl
  exact ⟨h.1, h.2.2.1⟩

/-! ## C7: delete -/

/-- C7 counterexample: on an empty store (no document for the id), DELETE
still answers `Group deleted successfully` — there is no notFound outcome,
refuting the claim that delete reports notFound for a missing id. -/
theorem C7_delete_counterexample :
    deleteGroup [] "abc" = (.okMsg "Group deleted successfully", []) := rfl

/-- C7 (amended): for a well-formed id, delete removes the key from the store
and always reports ok, whether or not a document existed; deletion is final.
-/
theorem lookup_filter_away (gid : String) (store : Store) :
    (store.filter fun p => p.1 ≠ gid).lookup gid = none := by
  induction store with
  | nil => rfl
  | cons p rest ih =>
    by_cases hp : p.1 = gid
    · simpa [List.filter_cons, hp] using ih
    · have hb : (gid == p.1) = false := by
        simp [Ne.symm hp]
      simpa [List.filter_cons, hp, List.lookup, hb] using ih

theorem C7_delete_removes (store : Store) (gid : String)
    (h : invalidGroupId gid = false) :
    (deleteGroup store gid).1 = .okMsg "Group deleted successfully" ∧
    (deleteGroup store gid).2.lookup gid = none := by
  refine ⟨by simp [deleteGroup, h], ?_⟩
  simp only [deleteGroup, h, Bool.false_eq_true, if_false]
  exact lookup_filter_away gid store

/-- Witness for C7 at a concrete one-row store. -/
theorem C7_delete_removes_witness :
    (deleteGroup [("g", ⟨.null, 0⟩)] "g").1 = .okMsg "Group deleted successfully" ∧
    (deleteGroup [("g", ⟨.null, 0⟩)] "g").2.lookup "g" = none :=
  C7_delete_removes [("g", ⟨.null, 0⟩)] "g" rfl

/-! ## C8: retention sweep -/

/-- C8: the sweep deletes exactly the rows strictly older than `maxAge`
(`now - updatedAt > maxAge`), reports the removed row count, and a second
sweep at the same instant removes nothing. -/
theorem C8_sweep_exact_and_idempotent (store : Store) (now maxAge : Int)
    (gid : String) (r : Row) (h : (gid, r) ∈ store) :
    ((gid, r) ∈ (sweepExpired store now maxAge).2 ↔ ¬(now - r.updatedAt > maxAge)) ∧
    (sweepExpired store now maxAge).1 + (sweepExpired store now maxAge).2.length
      = store.length ∧
    sweepExpired (sweepExpired store now maxAge).2 now maxAge
      = (0, (sweepExpired store now maxAge).2) := by
  refine ⟨?_, ?_, ?_⟩
  · rw [sweepExpired]
    simp only [List.mem_filter, expiredRow]
    constructor
    · rintro ⟨-, hb⟩
      simp at hb
      omega
    · intro hage
      refine ⟨h, ?_⟩
      simp
      omega
  · rw [sweepExpired]
    exact length_filter_add_length_filter_not _ store
  · have hall : ∀ p ∈ (sweepExpired store now maxAge).2,
        expiredRow now maxAge p.2 = false := by
      intro p hp
      rw [sweepExpired] at hp
      have := (List.mem_filter.mp hp).2
      simpa using this
    rw [sweepExpired, Prod.mk.injEq]
    constructor
    · simp only [List.length_eq_zero, List.filter_eq_nil_iff]
      intro p hp
      simp [hall p hp]
    · rw [List.filter_eq_self.mpr]
      intro p hp
      simp [hall p hp]

/-- Witness for C8: a store with one stale and one fresh row. -/
theorem C8_sweep_witness :
    ((("old", (⟨.null, 0⟩ : Row)) ∈
        (sweepExpired [("old", ⟨.null, 0⟩), ("new", ⟨.null, 9⟩)] 10 3).2 ↔
      ¬((10 : Int) - 0 > 3)) ∧
    (sweepExpired [("old", ⟨.null, 0⟩), ("new", ⟨.null, 9⟩)] 10 3).1 +
      (sweepExpired [("old", ⟨.null, 0⟩), ("new", ⟨.null, 9⟩)] 10 3).2.length = 2 ∧
    sweepExpired (sweepExpired [("old", ⟨.null, 0⟩), ("new", ⟨.null, 9⟩)] 10 3).2
      10 3 = (0, (sweepExpired [("old", ⟨.null, 0⟩), ("new", ⟨.null, 9⟩)] 10 3).2)) :=
  C8_sweep_exact_and_idempotent [("old", ⟨.null, 0⟩), ("new", ⟨.null, 9⟩)] 10 3
    "old" ⟨.null, 0⟩ (by simp)

/-! ## C10: group-id validation -/

/-- C10: with a malformed id — empty, longer than 255 characters, or holding
a character outside `[a-zA-Z0-9-_]` (those three conditions being exactly
what the shared guard tests) — GET, POST and DELETE all answer
`Invalid group ID format` and leave the store untouched; and POST can only
ever add rows keyed by an id that passes the guard. -/
theorem C10_group_id_guard (store : Store) (gid : String) (body : JsVal)
    (now : Int) (h : invalidGroupId gid = true) :
    getGroup store gid = .badRequest "Invalid group ID format" ∧
    postGroup store gid body now = (.badRequest "Invalid group ID format", store) ∧
    deleteGroup store gid = (.badRequest "Invalid group ID format", store) ∧
    (∀ s : String, invalidGroupId s = true ↔
      s = "" ∨ 255 < s.length ∨ ∃ c ∈ s.data, allowedIdChar c = false) ∧
    (∀ (st : Store) (g : String) (b : JsVal) (n : Int) (p : String × Row),
      p ∈ (postGroup st g b n).2 → p ∈ st ∨ (p.1 = g ∧ invalidGroupId g = false)) := by
  refine ⟨by simp [getGroup, h], by simp [postGroup, h], by simp [deleteGroup, h],
    ?_, ?_⟩
  · intro s
    rw [invalidGroupId]
    simp only [Bool.or_eq_true, Bool.not_eq_true', Bool.and_eq_false_iff,
      decide_eq_true_eq, decide_eq_false_iff_not, not_not, List.all_eq_false,
      Bool.not_eq_true]
    tauto
  · intro st g b n p hp
    by_cases hg : invalidGroupId g = true
    · rw [postGroup] at hp
      simp only [hg, if_true] at hp
      exact Or.inl hp
    · have hg' : invalidGroupId g = false := by simpa using hg
      rw [postGroup] at hp
      rcases hv : validateGroupData b with e | errs <;> simp [hg', hv] at hp
      · exact Or.inl hp
      · by_cases he : errs.length > 0
        · rw [if_pos he] at hp
          exact Or.inl hp
        · rw [if_neg he] at hp
          rcases hsv : sanitizeGroupData b with e | clean <;> simp [hsv] at hp
          · exact Or.inl hp
          · rcases hl : st.lookup g with _ | old <;> simp only [hl] at hp
            · simp only [List.mem_append, List.mem_singleton] at hp
              rcases hp with hp | hp
              · exact Or.inl hp
              · subst hp
                exact Or.inr ⟨rfl, hg'⟩
            · simp only [List.mem_map] at hp
              obtain ⟨q, hq, hqe⟩ := hp
              by_cases hqg : q.1 = g
              · rw [if_pos hqg] at hqe
                subst hqe
                exact Or.inr ⟨hqg, hg'⟩
              · rw [if_neg hqg] at hqe
                subst hqe
                exact Or.inl hq

/-- Witness for C10 at the malformed id `"bad id!"` (contains a space and
`!`). -/
theorem C10_group_id_guard_witness :
    getGroup [] "bad id!" = .badRequest "Invalid group ID format" ∧
    postGroup [] "bad id!" .null 0 = (.badRequest "Invalid group ID format", []) ∧
    deleteGroup [] "bad id!" = (.badRequest "Invalid group ID format", []) ∧
    (∀ s : String, invalidGroupId s = true ↔
      s = "" ∨ 255 < s.length ∨ ∃ c ∈ s.data, allowedIdChar c = false) ∧
    (∀ (st : Store) (g : String) (b : JsVal) (n : Int) (p : String × Row),
      p ∈ (postGroup st g b n).2 → p ∈ st ∨ (p.1 = g ∧ invalidGroupId g = false)) :=
  C10_group_id_guard [] "bad id!" .null 0 rfl

/-! ## C2: the validator on malformed input -/

/-- Did the computation finish without throwing? -/
def isOkE : Except Unit α → Bool
  | .ok _ => true
  | .error _ => false

theorem collectM_ok_of {f : α → Except Unit (List String)} :
    ∀ {l : List α}, (∀ a ∈ l, isOkE (f a) = true) →
      isOkE (collectM f l) = true := by
  intro l
  induction l with
  | nil => exact fun _ => rfl
  | cons a as ih =>
    intro h
    have ha := h a (List.mem_cons_self a as)
    have has := ih fun x hx => h x (List.mem_cons_of_mem a hx)
    cases he : f a with
    | error e => rw [he] at ha; cases ha
    | ok es =>
      cases hes : collectM f as with
      | error e => rw [hes] at has; cases has
      | ok rest =>
        rw [collectM, he, hes]
        rfl

theorem itemErrors_ok (username : String) (i : JsVal)
    (h : nullish i = false) : isOkE (itemErrors username i) = true := by
  rw [itemErrors, h]
  rfl

theorem userErrors_ok (username : String) (user : JsVal)
    (hu : nullish user = false)
    (hi : ∀ i ∈ itemsListOf user, nullish i = false) :
    isOkE (userErrors username user) = true := by
  cases hit : index user "items" with
  | arr l =>
    have hl : itemsListOf user = l := by rw [itemsListOf, hit]
    have hcol : isOkE (collectM (itemErrors username) l) = true :=
      collectM_ok_of fun i hmem => itemErrors_ok username i (hi i (hl ▸ hmem))
    simp only [userErrors, hu, Bool.false_eq_true, if_false, hit]
    by_cases hlen : l.length > 100
    · rw [if_pos hlen]
      rfl
    · rw [if_neg hlen]
      cases hes : collectM (itemErrors username) l with
      | error e => rw [hes] at hcol; cases hcol
      | ok es => rfl
  | null =>
    simp only [userErrors, hu, Bool.false_eq_true, if_false, hit]
    rfl
  | undefined =>
    simp only [userErrors, hu, Bool.false_eq_true, if_false, hit]
    rfl
  | bool b =>
    simp only [userErrors, hu, Bool.false_eq_true, if_false, hit]
    rfl
  | num n =>
    simp only [userErrors, hu, Bool.false_eq_true, if_false, hit]
    rfl
  | str s =>
    simp only [userErrors, hu, Bool.false_eq_true, if_false, hit]
    rfl
  | obj fs =>
    simp only [userErrors, hu, Bool.false_eq_true, if_false, hit]
    rfl

/-- C2 counterexample: the claim says the Validator never throws, but a
document whose `users` mapping holds a `null` member entry makes
`user.items` throw a `TypeError` (modelled by `Except.error`).  The raw
value `null` and a `null` item in an `items` array throw likewise. -/
theorem C2_never_throws_counterexample :
    validateGroupData (.obj [("users", .obj [("a", .null)])]) = .error () ∧
    validateGroupData .null = .error () ∧
    validateGroupData (.obj [("groupName", .str "g"),
      ("users", .obj [("a", .obj [("items", .arr [.null])])])]) = .error () :=
  ⟨rfl, rfl, rfl⟩

/-- C2 (amended): the Validator returns a list of human-readable errors
without throwing for every candidate value that is not itself
`null`/`undefined`, whose `eventDate` (when truthy) is a string, whose user
entries are not `null`/`undefined`, and whose items arrays hold no
`null`/`undefined` element; on those excluded shapes the code throws a
`TypeError` instead of reporting an error. -/
theorem C2_no_throw_amended (d : JsVal)
    (h1 : nullish d = false)
    (h2 : truthy (index d "eventDate") = true → isStr (index d "eventDate") = true)
    (h3 : ∀ p ∈ usersEntriesOf d, nullish p.2 = false)
    (h4 : ∀ p ∈ usersEntriesOf d, ∀ i ∈ itemsListOf p.2, nullish i = false) :
    isOkE (validateGroupData d) = true := by
  have hdate : isOkE (dateErrors (index d "eventDate")) = true := by
    by_cases ht : truthy (index d "eventDate") = true
    · cases hed : index d "eventDate" with
      | str s =>
        rw [hed] at ht
        rw [dateErrors, if_pos ht]
        rfl
      | null => rw [hed] at ht; cases ht
      | undefined => rw [hed] at ht; cases ht
      | bool b => have := h2 ht; rw [hed] at this; cases this
      | num n => have := h2 ht; rw [hed] at this; cases this
      | arr xs => have := h2 ht; rw [hed] at this; cases this
      | obj fs => have := h2 ht; rw [hed] at this; cases this
    · rw [dateErrors, if_neg ht]
      rfl
  have husers : isOkE (usersErrors (index d "users")) = true := by
    cases hus : index d "users" with
    | obj fs =>
      have hfs : usersEntriesOf d = fs := by rw [usersEntriesOf, hus]
      have hcol : isOkE (collectM (fun p => userErrors p.1 p.2) fs) = true :=
        collectM_ok_of fun p hp => userErrors_ok p.1 p.2 (h3 p (hfs ▸ hp))
          fun i hi => h4 p (hfs ▸ hp) i hi
      cases hes : collectM (fun p => userErrors p.1 p.2) fs with
      | error e => rw [hes] at hcol; cases hcol
      | ok es =>
        rw [usersErrors, hes]
        rfl
    | null => rfl
    | undefined => rfl
    | bool b => rfl
    | num n => rfl
    | str s => rfl
    | arr xs => rfl
  rw [validateGroupData, h1]
  simp only [Bool.false_eq_true, if_false]
  cases he3 : dateErrors (index d "eventDate") with
  | error e => rw [he3] at hdate; cases hdate
  | ok e3 =>
    cases he4 : usersErrors (index d "users") with
    | error e => rw [he4] at husers; cases husers
    | ok e4 => rfl

/-- Witness for C2 (amended) at a malformed but non-throwing document
(`users` is a number, `holiday` an unknown label): the validator reports
errors instead of crashing. -/
theorem C2_no_throw_amended_witness :
    isOkE (validateGroupData (.obj [("holiday", .str "Festivus"),
      ("users", .num 3)])) = true :=
  C2_no_throw_amended (.obj [("holiday", .str "Festivus"), ("users", .num 3)])
    rfl (by decide) (fun p hp => absurd hp (List.not_mem_nil p))
    (fun p hp => absurd hp (List.not_mem_nil p))

/-! ## Sanitizer output lemmas -/

theorem sanitizeItem_ok {a b : JsVal} (h : sanitizeItem a = .ok b) :
    nullish a = false ∧ b = sanitizedItem a := by
  rw [sanitizeItem] at h
  cases hn : nullish a with
  | true => rw [hn] at h; simp at h
  | false =>
    rw [hn] at h
    simp only [Bool.false_eq_true, if_false] at h
    injection h with h
    exact ⟨rfl, h.symm⟩

theorem objInsert_mem {fs : List (String × JsVal)} {k : String} {v : JsVal}
    {p : String × JsVal} (h : p ∈ objInsert fs k v) : p ∈ fs ∨ p = (k, v) := by
  induction fs with
  | nil =>
    rw [objInsert] at h
    exact Or.inr (List.mem_singleton.mp h)
  | cons q rest ih =>
    rw [objInsert] at h
    by_cases hq : q.1 = k
    · rw [if_pos hq] at h
      rcases List.mem_cons.mp h with h | h
      · exact Or.inr h
      · exact Or.inl (List.mem_cons_of_mem q h)
    · rw [if_neg hq] at h
      rcases List.mem_cons.mp h with h | h
      · exact Or.inl (h ▸ List.mem_cons_self q rest)
      · rcases ih h with h | h
        · exact Or.inl (List.mem_cons_of_mem q h)
        · exact Or.inr h

theorem mapExcept_ok_mem {f : JsVal → Except Unit JsVal} :
    ∀ {l out : List JsVal}, mapExcept f l = .ok out →
      ∀ b ∈ out, ∃ a ∈ l, f a = .ok b := by
  intro l
  induction l with
  | nil =>
    intro out h b hb
    rw [mapExcept] at h
    injection h with h
    subst h
    cases hb
  | cons a as ih =>
    intro out h b hb
    rw [mapExcept] at h
    cases hfa : f a with
    | error e => simp only [hfa] at h; cases h
    | ok b0 =>
      simp only [hfa] at h
      cases hm : mapExcept f as with
      | error e => simp only [hm] at h; cases h
      | ok bs =>
        simp only [hm] at h
        injection h with h
        subst h
        rcases List.mem_cons.mp hb with hb | hb
        · exact ⟨a, List.mem_cons_self a as, hb ▸ hfa⟩
        · obtain ⟨a0, ha0, hfa0⟩ := ih hm b hb
          exact ⟨a0, List.mem_cons_of_mem a ha0, hfa0⟩

theorem mapExcept_ok_length {f : JsVal → Except Unit JsVal} :
    ∀ {l out : List JsVal}, mapExcept f l = .ok out → out.length = l.length := by
  intro l
  induction l with
  | nil =>
    intro out h
    rw [mapExcept] at h
    injection h with h
    rw [← h]
  | cons a as ih =>
    intro out h
    rw [mapExcept] at h
    cases hfa : f a with
    | error e => simp only [hfa] at h; cases h
    | ok b0 =>
      simp only [hfa] at h
      cases hm : mapExcept f as with
      | error e => simp only [hm] at h; cases h
      | ok bs =>
        simp only [hm] at h
        injection h with h
        rw [← h]
        simp [ih hm]

theorem sanitizeUsersLoop_mem (usersVal : JsVal) :
    ∀ (names : List String) (acc fs : List (String × JsVal)),
      sanitizeUsersLoop usersVal names acc = .ok fs →
      ∀ p ∈ fs, p ∈ acc ∨ ∃ itemsOut : List JsVal,
        p.2 = .obj [("items", .arr itemsOut)] ∧ itemsOut.length ≤ 100 ∧
        ∀ j ∈ itemsOut, ∃ i0, j = sanitizedItem i0 := by
  intro names
  induction names with
  | nil =>
    intro acc fs h p hp
    rw [sanitizeUsersLoop] at h
    injection h with h
    subst h
    exact Or.inl hp
  | cons uname rest ih =>
    intro acc fs h p hp
    rw [sanitizeUsersLoop] at h
    cases hn : nullish (index usersVal uname) with
    | true => rw [hn] at h; simp at h
    | false =>
      rw [hn] at h
      simp only [Bool.false_eq_true, if_false] at h
      cases hit : index (index usersVal uname) "items" with
      | arr l =>
        simp only [hit] at h
        cases hm : mapExcept sanitizeItem (l.take 100) with
        | error e => simp only [hm] at h; cases h
        | ok itemsOut =>
          simp only [hm] at h
          rcases ih _ _ h p hp with hin | hgood
          · rcases objInsert_mem hin with hin | heq
            · exact Or.inl hin
            · refine Or.inr ⟨itemsOut, by rw [heq], ?_, ?_⟩
              · have h1 := mapExcept_ok_length hm
                have h2 := List.length_take_le 100 l
                omega
              · intro j hj
                obtain ⟨i0, _, hfi⟩ := mapExcept_ok_mem hm j hj
                exact ⟨i0, (sanitizeItem_ok hfi).2⟩
          · exact Or.inr hgood
      | null =>
        simp only [hit] at h
        rcases ih _ _ h p hp with hin | hgood
        · rcases objInsert_mem hin with hin | heq
          · exact Or.inl hin
          · exact Or.inr ⟨[], by rw [heq], by simp, by intro j hj; cases hj⟩
        · exact Or.inr hgood
      | undefined =>
        simp only [hit] at h
        rcases ih _ _ h p hp with hin | hgood
        · rcases objInsert_mem hin with hin | heq
          · exact Or.inl hin
          · exact Or.inr ⟨[], by rw [heq], by simp, by intro j hj; cases hj⟩
        · exact Or.inr hgood
      | bool b =>
        simp only [hit] at h
        rcases ih _ _ h p hp with hin | hgood
        · rcases objInsert_mem hin with hin | heq
          · exact Or.inl hin
          · exact Or.inr ⟨[], by rw [heq], by simp, by intro j hj; cases hj⟩
        · exact Or.inr hgood
      | num n0 =>
        simp only [hit] at h
        rcases ih _ _ h p hp with hin | hgood
        · rcases objInsert_mem hin with hin | heq
          · exact Or.inl hin
          · exact Or.inr ⟨[], by rw [heq], by simp, by intro j hj; cases hj⟩
        · exact Or.inr hgood
      | str s0 =>
        simp only [hit] at h
        rcases ih _ _ h p hp with hin | hgood
        · rcases objInsert_mem hin with hin | heq
          · exact Or.inl hin
          · exact Or.inr ⟨[], by rw [heq], by simp, by intro j hj; cases hj⟩
        · exact Or.inr hgood
      | obj fs0 =>
        simp only [hit] at h
        rcases ih _ _ h p hp with hin | hgood
        · rcases objInsert_mem hin with hin | heq
          · exact Or.inl hin
          · exact Or.inr ⟨[], by rw [heq], by simp, by intro j hj; cases hj⟩
        · exact Or.inr hgood

theorem usersEntriesOf_sanitizedDoc (gn hol ed cb : JsVal)
    (usersOut : List (String × JsVal)) :
    usersEntriesOf (sanitizedDoc gn hol ed cb usersOut) = usersOut := rfl

theorem sanitizeGroupData_ok_shape {d out : JsVal}
    (h : sanitizeGroupData d = .ok out) :
    ∃ usersOut : List (String × JsVal),
      out = sanitizedDoc (index d "groupName") (index d "holiday")
        (index d "eventDate") (index d "createdBy") usersOut ∧
      ∀ p ∈ usersOut, ∃ itemsOut : List JsVal,
        p.2 = .obj [("items", .arr itemsOut)] ∧ itemsOut.length ≤ 100 ∧
        ∀ j ∈ itemsOut, ∃ i0, j = sanitizedItem i0 := by
  rw [sanitizeGroupData] at h
  cases hn : nullish d with
  | true => rw [hn] at h; simp at h
  | false =>
    rw [hn] at h
    simp only [Bool.false_eq_true, if_false] at h
    by_cases hc : (truthy (index d "users") && typeofObject (index d "users")) = true
    · rw [if_pos hc] at h
      cases hloop : sanitizeUsersLoop (index d "users")
          ((objKeys (index d "users")).take 50) [] with
      | error e => rw [hloop] at h; simp at h
      | ok usersOut =>
        rw [hloop] at h
        injection h with h
        refine ⟨usersOut, h.symm, ?_⟩
        intro p hp
        rcases sanitizeUsersLoop_mem _ _ _ _ hloop p hp with hin | hgood
        · cases hin
        · exact hgood
    · rw [if_neg hc] at h
      injection h with h
      exact ⟨[], h.symm, by intro p hp; cases hp⟩


/-! ## C4: bare-string claimedBy -/

theorem sanitizedItem_claimedBy (i : JsVal) :
    index (sanitizedItem i) "claimedBy" = (match index i "claimedBy" with
      | .arr l => .arr ((l.take 10).map fun n => .str (sanitizeString n 100))
      | _ => .arr []) := rfl

theorem collectM_ok_nil {f : α → Except Unit (List String)} :
    ∀ {l : List α}, collectM f l = .ok [] → ∀ a ∈ l, f a = .ok [] := by
  intro l
  induction l with
  | nil => intro _ a ha; cases ha
  | cons a as ih =>
    intro h b hb
    rw [collectM] at h
    cases hfa : f a with
    | error e => simp only [hfa] at h; cases h
    | ok es =>
      simp only [hfa] at h
      cases hcol : collectM f as with
      | error e => simp only [hcol] at h; cases h
      | ok rest =>
        simp only [hcol] at h
        injection h with h
        obtain ⟨hes, hrest⟩ := List.append_eq_nil.mp h
        rcases List.mem_cons.mp hb with hb | hb
        · rw [hb, hfa, hes]
        · exact ih (by rw [hcol, hrest]) b hb

theorem validate_ok_nil {d : JsVal} (h : validateGroupData d = .ok []) :
    nullish d = false ∧ usersErrors (index d "users") = .ok [] := by
  cases hn : nullish d with
  | true => rw [validateGroupData, hn] at h; simp at h
  | false =>
    refine ⟨rfl, ?_⟩
    rw [validateGroupData, hn] at h
    simp only [Bool.false_eq_true, if_false] at h
    cases hdd : dateErrors (index d "eventDate") with
    | error e => simp only [hdd] at h; cases h
    | ok e3 =>
      simp only [hdd] at h
      cases huu : usersErrors (index d "users") with
      | error e => simp only [huu] at h; cases h
      | ok e4 =>
        simp only [huu] at h
        injection h with h
        obtain ⟨h1, h2⟩ := List.append_eq_nil.mp h
        rw [h2]

theorem usersErrors_ok_nil {us : JsVal} {fs : List (String × JsVal)}
    (hus : us = .obj fs) (h : usersErrors us = .ok []) :
    ∀ p ∈ fs, userErrors p.1 p.2 = .ok [] := by
  subst hus
  rw [usersErrors] at h
  cases hcol : collectM (fun p => userErrors p.1 p.2) fs with
  | error e => simp only [hcol] at h; cases h
  | ok es =>
    simp only [hcol] at h
    injection h with h
    obtain ⟨h1, h2⟩ := List.append_eq_nil.mp h
    exact collectM_ok_nil (by rw [hcol, h2])

theorem userErrors_ok_nil {uname : String} {user : JsVal} {l : List JsVal}
    (hitems : index user "items" = .arr l)
    (h : userErrors uname user = .ok []) :
    ∀ i ∈ l, itemErrors uname i = .ok [] := by
  rw [userErrors] at h
  cases hn : nullish user with
  | true => simp only [hn] at h; simp at h
  | false =>
    simp only [hn, Bool.false_eq_true, if_false, hitems] at h
    by_cases hlen : l.length > 100
    · rw [if_pos hlen] at h
      injection h with h
      obtain ⟨h1, h2⟩ := List.append_eq_nil.mp h
      cases h2
    · rw [if_neg hlen] at h
      cases hcol : collectM (itemErrors uname) l with
      | error e => simp only [hcol] at h; cases h
      | ok es =>
        simp only [hcol] at h
        injection h with h
        obtain ⟨h1, h2⟩ := List.append_eq_nil.mp h
        exact collectM_ok_nil (by rw [hcol, h2])

theorem itemErrors_ok_nil_claimedBy {uname : String} {i : JsVal}
    (h : itemErrors uname i = .ok []) :
    ¬(truthy (index i "claimedBy") = true ∧ isArr (index i "claimedBy") = false) := by
  rw [itemErrors] at h
  cases hn : nullish i with
  | true => simp only [hn] at h; simp at h
  | false =>
    simp only [hn, Bool.false_eq_true, if_false] at h
    injection h with h
    obtain ⟨h1, h2⟩ := List.append_eq_nil.mp h
    rintro ⟨hT, hA⟩
    rw [hT, hA] at h2
    simp at h2

/-- C4 counterexample: an item whose `claimedBy` is the bare string `""` — a
string, not an array — passes validation with no errors, because the guard
`item.claimedBy && !Array.isArray(item.claimedBy)` is skipped for falsy
values; so the claim that any bare-string `claimedBy` is rejected is false. -/
theorem C4_claimedBy_counterexample :
    validateGroupData (.obj [("groupName", .str "g"),
      ("users", .obj [("a", .obj [("items", .arr [.obj [
        ("description", .str "x"), ("claimedBy", .str "")]])])])]) = .ok [] := rfl

/-- C4 (amended): a truthy non-array `claimedBy` — in particular every
nonempty bare string — is rejected by the Validator (contrapositive: a
document accepted with no errors has no reachable item whose `claimedBy` is
truthy and not an array); the empty string, being falsy, slips through.  On
the write path the sanitizer replaces every non-array `claimedBy` with `[]`,
so documents stored by createOrUpdate always carry arrays; the read path
itself performs no such defense. -/
theorem C4_claimedBy_amended (d out : JsVal) (fs : List (String × JsVal))
    (uname : String) (user : JsVal) (l : List JsVal) (i : JsVal)
    (hus : index d "users" = .obj fs)
    (hmem : (uname, user) ∈ fs)
    (hitems : index user "items" = .arr l)
    (hi : i ∈ l)
    (hok : validateGroupData d = .ok [])
    (hsan : sanitizeGroupData d = .ok out) :
    ¬(truthy (index i "claimedBy") = true ∧ isArr (index i "claimedBy") = false) ∧
    (∀ p ∈ usersEntriesOf out, ∀ j ∈ itemsListOf p.2,
      isArr (index j "claimedBy") = true) := by
  constructor
  · have h2 := (validate_ok_nil hok).2
    have h3 := usersErrors_ok_nil hus h2
    have h4 := userErrors_ok_nil hitems (h3 (uname, user) hmem)
    exact itemErrors_ok_nil_claimedBy (h4 i hi)
  · intro p hp j hj
    obtain ⟨usersOut, hout, husers⟩ := sanitizeGroupData_ok_shape hsan
    rw [hout, usersEntriesOf_sanitizedDoc] at hp
    obtain ⟨itemsOut, hpi, _, hjs⟩ := husers p hp
    rw [hpi] at hj
    have hj2 : j ∈ itemsOut := hj
    obtain ⟨i0, hji⟩ := hjs j hj2
    rw [hji, sanitizedItem_claimedBy]
    cases index i0 "claimedBy" <;> rfl

/-- Witness for C4 (amended) at a concrete valid document with one item. -/
theorem C4_claimedBy_amended_witness :
    ¬(truthy (index (.obj [("description", .str "x")]) "claimedBy") = true ∧
      isArr (index (.obj [("description", .str "x")]) "claimedBy") = false) ∧
    (∀ p ∈ usersEntriesOf (.obj [
      ("groupName", .str "g"), ("holiday", .str "Christmas"),
      ("eventDate", .str ""), ("createdBy", .str ""),
      ("users", .obj [("a", .obj [("items", .arr [.obj [
        ("description", .str "x"), ("priority", .str "medium"),
        ("price", .str ""), ("notes", .str ""), ("details", .str ""),
        ("claimedBy", .arr []), ("purchased", .bool false),
        ("splitWith", .arr [])]])])])]),
      ∀ j ∈ itemsListOf p.2, isArr (index j "claimedBy") = true) :=
  C4_claimedBy_amended
    (.obj [("groupName", .str "g"),
      ("users", .obj [("a", .obj [("items", .arr [.obj [
        ("description", .str "x")]])])])])
    (.obj [
      ("groupName", .str "g"), ("holiday", .str "Christmas"),
      ("eventDate", .str ""), ("createdBy", .str ""),
      ("users", .obj [("a", .obj [("items", .arr [.obj [
        ("description", .str "x"), ("priority", .str "medium"),
        ("price", .str ""), ("notes", .str ""), ("details", .str ""),
        ("claimedBy", .arr []), ("purchased", .bool false),
        ("splitWith", .arr [])]])])])])
    [("a", .obj [("items", .arr [.obj [("description", .str "x")]])])]
    "a" (.obj [("items", .arr [.obj [("description", .str "x")]])])
    [.obj [("description", .str "x")]] (.obj [("description", .str "x")])
    rfl (List.mem_singleton.mpr rfl) rfl (List.mem_singleton.mpr rfl)
    rfl rfl


/-! ## C9: invariants of sanitized items -/

theorem sanitizedItem_priority (i : JsVal) :
    index (sanitizedItem i) "priority" =
      (if truthy (index i "priority") && isPriorityVal (index i "priority")
        then index i "priority" else .str "medium") := rfl

theorem sanitizedItem_splitWith (i : JsVal) :
    index (sanitizedItem i) "splitWith" = (match index i "splitWith" with
      | .arr l => .arr ((l.take 10).map fun n => .str (sanitizeString n 100))
      | _ => .arr []) := rfl

theorem sanitizedItem_keys (i : JsVal) :
    topKeys (sanitizedItem i) = ["description", "priority", "price", "notes",
      "details", "claimedBy", "purchased", "splitWith"] := rfl

theorem isPriorityVal_cases {v : JsVal} (h : isPriorityVal v = true) :
    v = .str "high" ∨ v = .str "medium" ∨ v = .str "low" := by
  cases v with
  | str s =>
    rw [isPriorityVal] at h
    simp only [Bool.or_eq_true, decide_eq_true_eq] at h
    rcases h with (h | h) | h
    · exact Or.inl (by rw [h])
    · exact Or.inr (Or.inl (by rw [h]))
    · exact Or.inr (Or.inr (by rw [h]))
  | null => cases h
  | undefined => cases h
  | bool b => cases h
  | num n => cases h
  | arr xs => cases h
  | obj fs => cases h

theorem sanitizeString_length_le (v : JsVal) (n : Nat) :
    (sanitizeString v n).length ≤ n := by
  cases v with
  | str s => exact List.length_take_le n _
  | null => exact Nat.zero_le n
  | undefined => exact Nat.zero_le n
  | bool b => exact Nat.zero_le n
  | num m => exact Nat.zero_le n
  | arr xs => exact Nat.zero_le n
  | obj fs => exact Nat.zero_le n

theorem mem_trimRight : ∀ {l : List Char} {c : Char}, c ∈ trimRight l → c ∈ l := by
  intro l
  induction l with
  | nil => intro c h; cases h
  | cons a rest ih =>
    intro c h
    rw [trimRight] at h
    cases htr : trimRight rest with
    | nil =>
      simp only [htr] at h
      by_cases hw : jsWs a = true
      · rw [if_pos hw] at h; cases h
      · rw [if_neg hw] at h
        exact List.mem_singleton.mp h ▸ List.mem_cons_self a rest
    | cons x xs =>
      simp only [htr] at h
      rcases List.mem_cons.mp h with h | h
      · exact h ▸ List.mem_cons_self a rest
      · exact List.mem_cons_of_mem a (ih (htr ▸ h))

theorem sanitizeString_noBad (v : JsVal) (n : Nat) :
    ∀ c ∈ (sanitizeString v n).data, badChar c = false := by
  cases v with
  | str s =>
    intro c hc
    have hc1 : c ∈ (jsTrim (removeBad (removeTags s.data))).take n := hc
    have h1 : c ∈ jsTrim (removeBad (removeTags s.data)) := List.mem_of_mem_take hc1
    have h2 : c ∈ trimLeft (removeBad (removeTags s.data)) := mem_trimRight h1
    have h3 : c ∈ removeBad (removeTags s.data) :=
      (List.dropWhile_sublist _).subset h2
    have h4 := List.mem_filter.mp h3
    simpa using h4.2
  | null => intro c hc; cases hc
  | undefined => intro c hc; cases hc
  | bool b => intro c hc; cases hc
  | num m => intro c hc; cases hc
  | arr xs => intro c hc; cases hc
  | obj fs => intro c hc; cases hc

/-- C9: every item produced by `sanitizeGroupData` has `claimedBy` and
`splitWith` as arrays of at most 10 entries, every entry a sanitized string
of at most 100 characters with no `<`, `>`, quote or apostrophe, and a
`priority` in {high, medium, low}; the last conjunct records the default:
the output priority is the input one exactly when that is truthy and
recognized, and `"medium"` otherwise. -/
theorem C9_sanitized_item_invariant (d out : JsVal) (p : String × JsVal)
    (j : JsVal)
    (hsan : sanitizeGroupData d = .ok out)
    (hp : p ∈ usersEntriesOf out)
    (hj : j ∈ itemsListOf p.2) :
    (∃ l, index j "claimedBy" = .arr l ∧ l.length ≤ 10 ∧
      ∀ e ∈ l, ∃ s, e = .str s ∧ s.length ≤ 100 ∧
        ∀ c ∈ s.data, badChar c = false) ∧
    (∃ l, index j "splitWith" = .arr l ∧ l.length ≤ 10 ∧
      ∀ e ∈ l, ∃ s, e = .str s ∧ s.length ≤ 100 ∧
        ∀ c ∈ s.data, badChar c = false) ∧
    (index j "priority" = .str "high" ∨ index j "priority" = .str "medium" ∨
      index j "priority" = .str "low") ∧
    (∀ v : JsVal, index (sanitizedItem v) "priority" =
      (if truthy (index v "priority") && isPriorityVal (index v "priority")
        then index v "priority" else .str "medium")) := by
  obtain ⟨usersOut, hout, husers⟩ := sanitizeGroupData_ok_shape hsan
  rw [hout, usersEntriesOf_sanitizedDoc] at hp
  obtain ⟨itemsOut, hpi, _, hjs⟩ := husers p hp
  rw [hpi] at hj
  have hj2 : j ∈ itemsOut := hj
  obtain ⟨i0, hji⟩ := hjs j hj2
  subst hji
  refine ⟨?_, ?_, ?_, fun v => sanitizedItem_priority v⟩
  · rw [sanitizedItem_claimedBy]
    cases index i0 "claimedBy" with
    | arr l0 =>
      refine ⟨_, rfl, ?_, ?_⟩
      · calc ((l0.take 10).map fun n => JsVal.str (sanitizeString n 100)).length
            = (l0.take 10).length := List.length_map _ _
          _ ≤ 10 := List.length_take_le 10 l0
      · intro e he
        obtain ⟨n0, _, hne⟩ := List.mem_map.mp he
        exact ⟨sanitizeString n0 100, hne.symm,
          sanitizeString_length_le n0 100, sanitizeString_noBad n0 100⟩
    | null => exact ⟨[], rfl, by simp, by intro e he; cases he⟩
    | undefined => exact ⟨[], rfl, by simp, by intro e he; cases he⟩
    | bool b => exact ⟨[], rfl, by simp, by intro e he; cases he⟩
    | num n => exact ⟨[], rfl, by simp, by intro e he; cases he⟩
    | str s => exact ⟨[], rfl, by simp, by intro e he; cases he⟩
    | obj fs => exact ⟨[], rfl, by simp, by intro e he; cases he⟩
  · rw [sanitizedItem_splitWith]
    cases index i0 "splitWith" with
    | arr l0 =>
      refine ⟨_, rfl, ?_, ?_⟩
      · calc ((l0.take 10).map fun n => JsVal.str (sanitizeString n 100)).length
            = (l0.take 10).length := List.length_map _ _
          _ ≤ 10 := List.length_take_le 10 l0
      · intro e he
        obtain ⟨n0, _, hne⟩ := List.mem_map.mp he
        exact ⟨sanitizeString n0 100, hne.symm,
          sanitizeString_length_le n0 100, sanitizeString_noBad n0 100⟩
    | null => exact ⟨[], rfl, by simp, by intro e he; cases he⟩
    | undefined => exact ⟨[], rfl, by simp, by intro e he; cases he⟩
    | bool b => exact ⟨[], rfl, by simp, by intro e he; cases he⟩
    | num n => exact ⟨[], rfl, by simp, by intro e he; cases he⟩
    | str s => exact ⟨[], rfl, by simp, by intro e he; cases he⟩
    | obj fs => exact ⟨[], rfl, by simp, by intro e he; cases he⟩
  · rw [sanitizedItem_priority]
    by_cases hc : (truthy (index i0 "priority") &&
        isPriorityVal (index i0 "priority")) = true
    · rw [if_pos hc]
      exact isPriorityVal_cases (Bool.and_elim_right hc)
    · rw [if_neg hc]
      exact Or.inr (Or.inl rfl)

/-- Witness for C9 at a concrete document whose item has a bogus priority and
an over-long claimedBy list. -/
theorem C9_sanitized_item_invariant_witness :
    (∃ l, index (sanitizedItem (.obj [("description", .str "x"),
        ("claimedBy", .arr [.str "Bob"]), ("priority", .str "urgent")]))
        "claimedBy" = .arr l ∧ l.length ≤ 10 ∧
      ∀ e ∈ l, ∃ s, e = .str s ∧ s.length ≤ 100 ∧
        ∀ c ∈ s.data, badChar c = false) ∧
    (∃ l, index (sanitizedItem (.obj [("description", .str "x"),
        ("claimedBy", .arr [.str "Bob"]), ("priority", .str "urgent")]))
        "splitWith" = .arr l ∧ l.length ≤ 10 ∧
      ∀ e ∈ l, ∃ s, e = .str s ∧ s.length ≤ 100 ∧
        ∀ c ∈ s.data, badChar c = false) ∧
    (index (sanitizedItem (.obj [("description", .str "x"),
        ("claimedBy", .arr [.str "Bob"]), ("priority", .str "urgent")]))
        "priority" = .str "high" ∨
      index (sanitizedItem (.obj [("description", .str "x"),
        ("claimedBy", .arr [.str "Bob"]), ("priority", .str "urgent")]))
        "priority" = .str "medium" ∨
      index (sanitizedItem (.obj [("description", .str "x"),
        ("claimedBy", .arr [.str "Bob"]), ("priority", .str "urgent")]))
        "priority" = .str "low") ∧
    (∀ v : JsVal, index (sanitizedItem v) "priority" =
      (if truthy (index v "priority") && isPriorityVal (index v "priority")
        then index v "priority" else .str "medium")) :=
  C9_sanitized_item_invariant
    (.obj [("groupName", .str "g"),
      ("users", .obj [("a", .obj [("items", .arr [.obj [
        ("description", .str "x"), ("claimedBy", .arr [.str "Bob"]),
        ("priority", .str "urgent")]])])])])
    (.obj [
      ("groupName", .str "g"), ("holiday", .str "Christmas"),
      ("eventDate", .str ""), ("createdBy", .str ""),
      ("users", .obj [("a", .obj [("items", .arr [sanitizedItem (.obj [
        ("description", .str "x"), ("claimedBy", .arr [.str "Bob"]),
        ("priority", .str "urgent")])]  )])])])
    ("a", .obj [("items", .arr [sanitizedItem (.obj [
      ("description", .str "x"), ("claimedBy", .arr [.str "Bob"]),
      ("priority", .str "urgent")])])])
    (sanitizedItem (.obj [("description", .str "x"),
      ("claimedBy", .arr [.str "Bob"]), ("priority", .str "urgent")]))
    rfl (List.mem_singleton.mpr rfl) (List.mem_singleton.mpr rfl)

/-! ## C5: the sanitizer allow-list -/

theorem sanitizedDoc_topKeys (gn hol ed cb : JsVal)
    (usersOut : List (String × JsVal)) :
    topKeys (sanitizedDoc gn hol ed cb usersOut) =
      ["groupName", "holiday", "eventDate", "createdBy", "users"] := rfl

theorem sanitizedDoc_eventDate (gn hol ed cb : JsVal)
    (usersOut : List (String × JsVal)) :
    index (sanitizedDoc gn hol ed cb usersOut) "eventDate" =
      (if truthy ed = true then ed else .str "") := rfl

/-- C5 counterexample: `eventDate` is passed through unsanitized
(`data.eventDate || ''`), so an attacker-controlled key (`evil` here)
survives into the sanitizer's output nested under `eventDate`, refuting the
claim that any unknown input key is absent from the output. -/
theorem C5_allow_list_counterexample :
    sanitizeGroupData (.obj [("groupName", .str "g"),
      ("eventDate", .obj [("evil", .num 1)]), ("users", .obj [])]) =
      .ok (.obj [("groupName", .str "g"), ("holiday", .str "Christmas"),
        ("eventDate", .obj [("evil", .num 1)]), ("createdBy", .str ""),
        ("users", .obj [])]) ∧
    index (index (.obj [("groupName", .str "g"), ("holiday", .str "Christmas"),
        ("eventDate", .obj [("evil", .num 1)]), ("createdBy", .str ""),
        ("users", .obj [])]) "eventDate") "evil" = .num 1 := ⟨rfl, rfl⟩

/-- C5 (amended): the output of `sanitizeGroupData` is a strict allow-list at
every position except the `eventDate` value, which is passed through
unchanged whenever truthy: the top level has exactly the five allow-listed
keys, every user entry exactly `items`, every item exactly the eight
allow-listed keys, and `groupName`/`createdBy` are sanitized strings; an
extra input key can survive only inside `eventDate`. -/
theorem C5_allow_list_amended (d out : JsVal) (p : String × JsVal) (j : JsVal)
    (hsan : sanitizeGroupData d = .ok out)
    (hp : p ∈ usersEntriesOf out)
    (hj : j ∈ itemsListOf p.2) :
    topKeys out = ["groupName", "holiday", "eventDate", "createdBy", "users"] ∧
    topKeys p.2 = ["items"] ∧
    topKeys j = ["description", "priority", "price", "notes", "details",
      "claimedBy", "purchased", "splitWith"] ∧
    isStr (index out "groupName") = true ∧
    isStr (index out "createdBy") = true ∧
    isHoliday (index out "holiday") = true ∧
    index out "eventDate" =
      (if truthy (index d "eventDate") = true then index d "eventDate"
        else .str "") := by
  obtain ⟨usersOut, hout, husers⟩ := sanitizeGroupData_ok_shape hsan
  rw [hout, usersEntriesOf_sanitizedDoc] at hp
  obtain ⟨itemsOut, hpi, _, hjs⟩ := husers p hp
  rw [hpi] at hj
  have hj2 : j ∈ itemsOut := hj
  obtain ⟨i0, hji⟩ := hjs j hj2
  subst hout
  refine ⟨rfl, by rw [hpi]; rfl, by rw [hji]; exact sanitizedItem_keys i0,
    rfl, ?_, ?_, rfl⟩
  · show isStr (if truthy (index d "createdBy") = true
      then .str (sanitizeString (index d "createdBy") 100) else .str "") = true
    by_cases hc : truthy (index d "createdBy") = true
    · rw [if_pos hc]; rfl
    · rw [if_neg hc]; rfl
  · show isHoliday (if (truthy (index d "holiday") &&
      isHoliday (index d "holiday")) = true
      then index d "holiday" else .str "Christmas") = true
    by_cases hc : (truthy (index d "holiday") &&
        isHoliday (index d "holiday")) = true
    · rw [if_pos hc]
      exact Bool.and_elim_right hc
    · rw [if_neg hc]
      rfl

/-- Witness for C5 at a concrete document. -/
theorem C5_allow_list_amended_witness :
    topKeys (.obj [
      ("groupName", .str "g"), ("holiday", .str "Christmas"),
      ("eventDate", .str ""), ("createdBy", .str ""),
      ("users", .obj [("a", .obj [("items", .arr [.obj [
        ("description", .str "x"), ("priority", .str "medium"),
        ("price", .str ""), ("notes", .str ""), ("details", .str ""),
        ("claimedBy", .arr []), ("purchased", .bool false),
        ("splitWith", .arr [])]])])])]) =
      ["groupName", "holiday", "eventDate", "createdBy", "users"] ∧
    topKeys (.obj [("items", .arr [.obj [
        ("description", .str "x"), ("priority", .str "medium"),
        ("price", .str ""), ("notes", .str ""), ("details", .str ""),
        ("claimedBy", .arr []), ("purchased", .bool false),
        ("splitWith", .arr [])]])]) = ["items"] ∧
    topKeys (.obj [
        ("description", .str "x"), ("priority", .str "medium"),
        ("price", .str ""), ("notes", .str ""), ("details", .str ""),
        ("claimedBy", .arr []), ("purchased", .bool false),
        ("splitWith", .arr [])]) = ["description", "priority", "price",
      "notes", "details", "claimedBy", "purchased", "splitWith"] ∧
    isStr (index (.obj [
      ("groupName", .str "g"), ("holiday", .str "Christmas"),
      ("eventDate", .str ""), ("createdBy", .str ""),
      ("users", .obj [("a", .obj [("items", .arr [.obj [
        ("description", .str "x"), ("priority", .str "medium"),
        ("price", .str ""), ("notes", .str ""), ("details", .str ""),
        ("claimedBy", .arr []), ("purchased", .bool false),
        ("splitWith", .arr [])]])])])]) "groupName") = true ∧
    isStr (index (.obj [
      ("groupName", .str "g"), ("holiday", .str "Christmas"),
      ("eventDate", .str ""), ("createdBy", .str ""),
      ("users", .obj [("a", .obj [("items", .arr [.obj [
        ("description", .str "x"), ("priority", .str "medium"),
        ("price", .str ""), ("notes", .str ""), ("details", .str ""),
        ("claimedBy", .arr []), ("purchased", .bool false),
        ("splitWith", .arr [])]])])])]) "createdBy") = true ∧
    isHoliday (index (.obj [
      ("groupName", .str "g"), ("holiday", .str "Christmas"),
      ("eventDate", .str ""), ("createdBy", .str ""),
      ("users", .obj [("a", .obj [("items", .arr [.obj [
        ("description", .str "x"), ("priority", .str "medium"),
        ("price", .str ""), ("notes", .str ""), ("details", .str ""),
        ("claimedBy", .arr []), ("purchased", .bool false),
        ("splitWith", .arr [])]])])])]) "holiday") = true ∧
    index (.obj [
      ("groupName", .str "g"), ("holiday", .str "Christmas"),
      ("eventDate", .str ""), ("createdBy", .str ""),
      ("users", .obj [("a", .obj [("items", .arr [.obj [
        ("description", .str "x"), ("priority", .str "medium"),
        ("price", .str ""), ("notes", .str ""), ("details", .str ""),
        ("claimedBy", .arr []), ("purchased", .bool false),
        ("splitWith", .arr [])]])])])]) "eventDate" =
      (if truthy (index (.obj [("groupName", .str "g"),
        ("users", .obj [("a", .obj [("items", .arr [.obj [
          ("description", .str "x")]])])])]) "eventDate") = true
        then index (.obj [("groupName", .str "g"),
          ("users", .obj [("a", .obj [("items", .arr [.obj [
            ("description", .str "x")]])])])]) "eventDate"
        else .str "") :=
  C5_allow_list_amended
    (.obj [("groupName", .str "g"),
      ("users", .obj [("a", .obj [("items", .arr [.obj [
        ("description", .str "x")]])])])])
    (.obj [
      ("groupName", .str "g"), ("holiday", .str "Christmas"),
      ("eventDate", .str ""), ("createdBy", .str ""),
      ("users", .obj [("a", .obj [("items", .arr [.obj [
        ("description", .str "x"), ("priority", .str "medium"),
        ("price", .str ""), ("notes", .str ""), ("details", .str ""),
        ("claimedBy", .arr []), ("purchased", .bool false),
        ("splitWith", .arr [])]])])])])
    ("a", .obj [("items", .arr [.obj [
        ("description", .str "x"), ("priority", .str "medium"),
        ("price", .str ""), ("notes", .str ""), ("details", .str ""),
        ("claimedBy", .arr []), ("purchased", .bool false),
        ("splitWith", .arr [])]])])
    (.obj [
        ("description", .str "x"), ("priority", .str "medium"),
        ("price", .str ""), ("notes", .str ""), ("details", .str ""),
        ("claimedBy", .arr []), ("purchased", .bool false),
        ("splitWith", .arr [])])
    rfl (List.mem_singleton.mpr rfl) (List.mem_singleton.mpr rfl)


/-! ## C6: the serialized-size cap -/

/-- A document at the validator's own bounds: 100 items with a 500-character
description and 1000-character notes and details each. -/
def bigItem : JsVal := .obj [
  ("description", .str ⟨List.replicate 500 'a'⟩),
  ("notes", .str ⟨List.replicate 1000 'b'⟩),
  ("details", .str ⟨List.replicate 1000 'c'⟩)]

def bigUser : JsVal := .obj [("items", .arr (List.replicate 100 bigItem))]

/-- Two such users: well over 500 KB serialized, yet within every per-field
bound the validator checks. -/
def bigDoc : JsVal := .obj [("groupName", .str "g"),
  ("users", .obj [("u1", bigUser), ("u2", bigUser)])]

/-- The 500 KB gate of the historical server version (src/unnamed/part_001
lines 1298-1306): `dataSize > 500000` on the serialized document; the
current server.js has no such check. -/
def dataSizeTooLarge (v : JsVal) : Bool := jsonSize v > 500000

theorem escSum_replicate (n : Nat) (c : Char) :
    escSum (List.replicate n c) = n * escLen c := by
  induction n with
  | zero => simp [escSum]
  | succ m ih =>
    rw [List.replicate_succ]
    show escLen c + escSum (List.replicate m c) = _
    rw [ih]
    ring

theorem strJsonSize_replicate (n : Nat) (c : Char) :
    strJsonSize ⟨List.replicate n c⟩ = 2 + n * escLen c := by
  show 2 + escSum (List.replicate n c) = _
  rw [escSum_replicate]

theorem jsonSizeList_replicate (v : JsVal) :
    ∀ n, jsonSizeList (List.replicate (n + 1) v) = (n + 1) * jsonSize v + n := by
  intro n
  induction n with
  | zero => simp [List.replicate, jsonSizeList]
  | succ m ih =>
    rw [List.replicate_succ, List.replicate_succ, jsonSizeList,
      ← List.replicate_succ, ih]
    ring

theorem jsonSize_bigItem : jsonSize bigItem = 2542 := by
  have h : jsonSize bigItem = 2 + (strJsonSize "description" + 1 +
      strJsonSize ⟨List.replicate 500 'a'⟩ + 1 + (strJsonSize "notes" + 1 +
      strJsonSize ⟨List.replicate 1000 'b'⟩ + 1 + (strJsonSize "details" + 1 +
      strJsonSize ⟨List.replicate 1000 'c'⟩))) := rfl
  have k1 : strJsonSize "description" = 13 := by decide
  have k2 : strJsonSize "notes" = 7 := by decide
  have k3 : strJsonSize "details" = 9 := by decide
  have e1 : escLen 'a' = 1 := by decide
  have e2 : escLen 'b' = 1 := by decide
  have e3 : escLen 'c' = 1 := by decide
  rw [h, k1, k2, k3, strJsonSize_replicate, strJsonSize_replicate,
    strJsonSize_replicate, e1, e2, e3]

theorem jsonSize_bigUser : jsonSize bigUser = 254311 := by
  have h : jsonSize bigUser = 2 + (strJsonSize "items" + 1 +
      (2 + jsonSizeList (List.replicate 100 bigItem))) := rfl
  have hl := jsonSizeList_replicate bigItem 99
  rw [show (99 : Nat) + 1 = 100 from rfl] at hl
  have k : strJsonSize "items" = 7 := by decide
  rw [h, k, hl, jsonSize_bigItem]

theorem jsonSize_bigDoc : jsonSize bigDoc = 508661 := by
  have husers : jsonSize (.obj [("u1", bigUser), ("u2", bigUser)]) = 508635 := by
    have h : jsonSize (.obj [("u1", bigUser), ("u2", bigUser)]) =
        2 + (strJsonSize "u1" + 1 + jsonSize bigUser + 1 +
          (strJsonSize "u2" + 1 + jsonSize bigUser)) := rfl
    have k1 : strJsonSize "u1" = 4 := by decide
    have k2 : strJsonSize "u2" = 4 := by decide
    rw [h, k1, k2, jsonSize_bigUser]
  have h : jsonSize bigDoc = 2 + (strJsonSize "groupName" + 1 +
      strJsonSize "g" + 1 + (strJsonSize "users" + 1 +
      jsonSize (.obj [("u1", bigUser), ("u2", bigUser)]))) := rfl
  have k1 : strJsonSize "groupName" = 11 := by decide
  have k2 : strJsonSize "g" = 3 := by decide
  have k3 : strJsonSize "users" = 7 := by decide
  rw [h, k1, k2, k3, husers]

theorem validate_bigDoc : validateGroupData bigDoc = .ok [] := rfl

/-- C6 counterexample: `bigDoc` serializes to 508661 bytes (beyond the
500 KB cap) yet the current createOrUpdate accepts and stores it: there is
no size check anywhere in the current server.js group POST path. -/
theorem C6_size_cap_counterexample :
    jsonSize bigDoc > 500000 ∧
    (postGroup [] "big" bigDoc 0).1 = .okMsg "Group created successfully" ∧
    ((postGroup [] "big" bigDoc 0).2.lookup "big").isSome = true := by
  refine ⟨by rw [jsonSize_bigDoc]; norm_num, ?_, ?_⟩ <;>
  · rw [postGroup]
    rw [show invalidGroupId "big" = false from rfl]
    simp only [Bool.false_eq_true, if_false, validate_bigDoc]
    rfl

/-- C6 (amended): the current code has no total-size cap — `bigDoc`, over
500 KB serialized, passes validation and is stored — while the historical
version's gate (`dataSize > 500000`, src/unnamed/part_001) fires on exactly
the documents the claim describes, `bigDoc` included. -/
theorem C6_size_cap_amended :
    validateGroupData bigDoc = .ok [] ∧
    jsonSize bigDoc > 500000 ∧
    (postGroup [] "big" bigDoc 0).1 = .okMsg "Group created successfully" ∧
    dataSizeTooLarge bigDoc = true ∧
    (∀ v : JsVal, dataSizeTooLarge v = true ↔ 500000 < jsonSize v) := by
  refine ⟨validate_bigDoc, by rw [jsonSize_bigDoc]; norm_num, ?_,
    by rw [dataSizeTooLarge, jsonSize_bigDoc]; norm_num, fun v => by
      rw [dataSizeTooLarge]; exact decide_eq_true_iff⟩
  rw [postGroup]
  rw [show invalidGroupId "big" = false from rfl]
  simp only [Bool.false_eq_true, if_false, validate_bigDoc]
  rfl


/-! ## C3: idempotence of sanitization

`sanitizeString` trims before truncating, so truncation can leave a trailing
space that only a second application removes.  The lemmas below show the
second application reduces to a trailing-trim, hence sanitization is
idempotent exactly on outputs with no trailing whitespace. -/

theorem removeTagsFuel_noLt :
    ∀ (fuel : Nat) (l : List Char), Char.ofNat 60 ∉ l →
      removeTagsFuel fuel l = l := by
  intro fuel
  induction fuel with
  | zero => intro l _; rfl
  | succ m ih =>
    intro l hl
    cases l with
    | nil => rfl
    | cons c rest =>
      have hc : ¬c = '<' := by
        intro hc
        exact hl (hc ▸ List.mem_cons_self c rest)
      rw [removeTagsFuel, if_neg hc,
        ih rest fun hm => hl (List.mem_cons_of_mem c hm)]

theorem removeTags_noLt {l : List Char} (h : Char.ofNat 60 ∉ l) :
    removeTags l = l :=
  removeTagsFuel_noLt l.length l h

theorem removeBad_eq_self {l : List Char}
    (h : ∀ c ∈ l, badChar c = false) : removeBad l = l :=
  List.filter_eq_self.mpr fun c hc => by rw [h c hc]; rfl

/-- The head of a list is not whitespace (vacuously true when empty). -/
def headNotWs : List Char → Bool
  | [] => true
  | c :: _ => !jsWs c

theorem trimLeft_eq_self {l : List Char} (h : headNotWs l = true) :
    trimLeft l = l := by
  cases l with
  | nil => rfl
  | cons c rest =>
    have hw : jsWs c = false := by
      rw [headNotWs] at h
      simpa using h
    rw [trimLeft, List.dropWhile_cons, hw]
    rfl

theorem headNotWs_trimLeft (l : List Char) : headNotWs (trimLeft l) = true := by
  induction l with
  | nil => rfl
  | cons c rest ih =>
    rw [trimLeft, List.dropWhile_cons]
    by_cases hw : jsWs c = true
    · rw [hw]
      exact ih
    · have hw' : jsWs c = false := by simpa using hw
      rw [hw']
      show headNotWs (c :: rest) = true
      rw [headNotWs, hw']
      rfl

theorem headNotWs_trimRight {l : List Char} (h : headNotWs l = true) :
    headNotWs (trimRight l) = true := by
  cases l with
  | nil => rfl
  | cons c rest =>
    have hw : jsWs c = false := by
      rw [headNotWs] at h
      simpa using h
    rw [trimRight]
    cases trimRight rest with
    | nil =>
      rw [hw]
      simp only [Bool.false_eq_true, if_false]
      rw [headNotWs, hw]
      rfl
    | cons x xs =>
      rw [headNotWs, hw]
      rfl

theorem headNotWs_take {l : List Char} (n : Nat) (h : headNotWs l = true) :
    headNotWs (l.take n) = true := by
  cases l with
  | nil => cases n <;> rfl
  | cons c rest =>
    cases n with
    | zero => rfl
    | succ m =>
      rw [List.take_succ_cons]
      exact h

theorem sanitizeCore_noBad (l : List Char) (n : Nat) :
    ∀ c ∈ sanitizeCore l n, badChar c = false := by
  intro c hc
  have h1 : c ∈ jsTrim (removeBad (removeTags l)) := List.mem_of_mem_take hc
  have h2 : c ∈ trimLeft (removeBad (removeTags l)) := mem_trimRight h1
  have h3 : c ∈ removeBad (removeTags l) := (List.dropWhile_sublist _).subset h2
  have h4 := List.mem_filter.mp h3
  simpa using h4.2

theorem sanitizeCore_headNotWs (l : List Char) (n : Nat) :
    headNotWs (sanitizeCore l n) = true :=
  headNotWs_take n (headNotWs_trimRight (headNotWs_trimLeft _))

theorem sanitizeCore_twice (l : List Char) (n : Nat)
    (h : trimRight (sanitizeCore l n) = sanitizeCore l n) :
    sanitizeCore (sanitizeCore l n) n = sanitizeCore l n := by
  have hnb := sanitizeCore_noBad l n
  have hlt : Char.ofNat 60 ∉ sanitizeCore l n := by
    intro hm
    have := hnb _ hm
    rw [badChar] at this
    simp at this
  have h1 : removeTags (sanitizeCore l n) = sanitizeCore l n := removeTags_noLt hlt
  have h2 : removeBad (sanitizeCore l n) = sanitizeCore l n := removeBad_eq_self hnb
  have h3 : trimLeft (sanitizeCore l n) = sanitizeCore l n :=
    trimLeft_eq_self (sanitizeCore_headNotWs l n)
  have h5 : (sanitizeCore l n).length ≤ n := List.length_take_le n _
  show (trimRight (trimLeft (removeBad (removeTags (sanitizeCore l n))))).take n
      = sanitizeCore l n
  rw [h1, h2, h3, h, List.take_of_length_le h5]

theorem sanitizeCore_nil (n : Nat) : sanitizeCore [] n = [] := by
  show (jsTrim (removeBad (removeTags []))).take n = []
  rw [show jsTrim (removeBad (removeTags [])) = ([] : List Char) from rfl,
    List.take_nil]

theorem sanitizeString_empty (n : Nat) : sanitizeString (.str "") n = "" := by
  show (⟨sanitizeCore ([] : List Char) n⟩ : String) = ""
  rw [sanitizeCore_nil]

theorem sanitizeString_twice (v : JsVal) (n : Nat)
    (h : trimRight (sanitizeString v n).data = (sanitizeString v n).data) :
    sanitizeString (.str (sanitizeString v n)) n = sanitizeString v n := by
  cases v with
  | str s =>
    show (⟨sanitizeCore (sanitizeCore s.data n) n⟩ : String) = ⟨sanitizeCore s.data n⟩
    rw [sanitizeCore_twice s.data n h]
  | null => exact sanitizeString_empty n
  | undefined => exact sanitizeString_empty n
  | bool b => exact sanitizeString_empty n
  | num m => exact sanitizeString_empty n
  | arr xs => exact sanitizeString_empty n
  | obj fs => exact sanitizeString_empty n


/-- A string value with no trailing whitespace (non-strings pass trivially). -/
def strTC (v : JsVal) : Bool :=
  match v with
  | .str s => trimRight s.data == s.data
  | _ => true

/-- Every string field of a sanitized item is free of trailing whitespace. -/
def itemTC (i : JsVal) : Bool :=
  strTC (index i "description") && strTC (index i "price") &&
  strTC (index i "notes") && strTC (index i "details") &&
  (match index i "claimedBy" with | .arr l => l.all strTC | _ => true) &&
  (match index i "splitWith" with | .arr l => l.all strTC | _ => true)

def userTC (p : String × JsVal) : Bool :=
  (trimRight p.1.data == p.1.data) && (itemsListOf p.2).all itemTC

/-- Every string position of a sanitized document is free of trailing
whitespace — the exact condition under which a second sanitization is the
identity. -/
def docTC (v : JsVal) : Bool :=
  strTC (index v "groupName") && strTC (index v "createdBy") &&
  (usersEntriesOf v).all userTC

theorem strTC_str {s : String} (h : strTC (.str s) = true) :
    trimRight s.data = s.data := by
  rw [strTC] at h
  exact eq_of_beq h

theorem map_id_of_mem {f : JsVal → JsVal} :
    ∀ {l : List JsVal}, (∀ e ∈ l, f e = e) → l.map f = l := by
  intro l
  induction l with
  | nil => intro _; rfl
  | cons a as ih =>
    intro h
    rw [List.map_cons, h a (List.mem_cons_self a as),
      ih fun e he => h e (List.mem_cons_of_mem a he)]

theorem isPriorityVal_truthy {v : JsVal} (h : isPriorityVal v = true) :
    truthy v = true := by
  rcases isPriorityVal_cases h with h | h | h <;> rw [h] <;> rfl

theorem sanPriority_idem (p : JsVal) :
    sanPriority (sanPriority p) = sanPriority p := by
  by_cases hc : (truthy p && isPriorityVal p) = true
  · have hq : sanPriority p = p := by rw [sanPriority, if_pos hc]
    rw [hq]
    exact hq
  · have hq : sanPriority p = .str "medium" := by rw [sanPriority, if_neg hc]
    rw [hq]
    rfl

theorem isHoliday_truthy {v : JsVal} (h : isHoliday v = true) :
    truthy v = true := by
  cases v with
  | str s =>
    have hs : s = "Christmas" ∨ s = "Birthday" ∨ s = "Hanukkah" ∨
        s = "Anniversary" ∨ s = "Other" := by
      rw [isHoliday] at h
      simpa [validHolidays] using h
    rcases hs with h1 | h1 | h1 | h1 | h1 <;> subst h1 <;> rfl
  | null => cases h
  | undefined => cases h
  | bool b => cases h
  | num n => cases h
  | arr xs => cases h
  | obj fs => cases h

theorem sanHoliday_idem (hol : JsVal) :
    sanHoliday (sanHoliday hol) = sanHoliday hol := by
  by_cases hc : (truthy hol && isHoliday hol) = true
  · have hq : sanHoliday hol = hol := by rw [sanHoliday, if_pos hc]
    rw [hq]
    exact hq
  · have hq : sanHoliday hol = .str "Christmas" := by rw [sanHoliday, if_neg hc]
    rw [hq]
    rfl

theorem sanEventDate_idem (ed : JsVal) :
    sanEventDate (sanEventDate ed) = sanEventDate ed := by
  by_cases hc : truthy ed = true
  · have hq : sanEventDate ed = ed := by rw [sanEventDate, if_pos hc]
    rw [hq]
    exact hq
  · have hq : sanEventDate ed = .str "" := by rw [sanEventDate, if_neg hc]
    rw [hq]
    rfl

theorem sanCreatedBy_fixed (cb : JsVal)
    (h : strTC (sanCreatedBy cb) = true) :
    sanCreatedBy (sanCreatedBy cb) = sanCreatedBy cb := by
  by_cases hc : truthy cb = true
  · have hq : sanCreatedBy cb = .str (sanitizeString cb 100) := by
      rw [sanCreatedBy, if_pos hc]
    rw [hq] at h ⊢
    by_cases hs : sanitizeString cb 100 = ""
    · rw [hs]
      rfl
    · have ht : truthy (JsVal.str (sanitizeString cb 100)) = true := by
        rw [truthy]
        simpa using hs
      rw [sanCreatedBy, if_pos ht, sanitizeString_twice cb 100 (strTC_str h)]
  · have hq : sanCreatedBy cb = .str "" := by rw [sanCreatedBy, if_neg hc]
    rw [hq]
    rfl

theorem sanOptStr_fixed (v : JsVal) (n : Nat)
    (h : strTC (sanOptStr v n) = true) :
    sanOptStr (sanOptStr v n) n = sanOptStr v n := by
  by_cases hc : truthy v = true
  · have hq : sanOptStr v n = .str (sanitizeString v n) := by
      rw [sanOptStr, if_pos hc]
    rw [hq] at h ⊢
    by_cases hs : sanitizeString v n = ""
    · rw [hs]
      rfl
    · have ht : truthy (JsVal.str (sanitizeString v n)) = true := by
        rw [truthy]
        simpa using hs
      rw [sanOptStr, if_pos ht, sanitizeString_twice v n (strTC_str h)]
  · have hq : sanOptStr v n = .str "" := by rw [sanOptStr, if_neg hc]
    rw [hq]
    rfl

theorem sanPrice_fixed (price : JsVal)
    (h : strTC (sanPrice price) = true) :
    sanPrice (sanPrice price) = sanPrice price := by
  by_cases hc : truthy price = true
  · have hq : sanPrice price
        = .str (sanitizeString (.str (jsToString price)) 20) := by
      rw [sanPrice, if_pos hc]
    rw [hq] at h ⊢
    by_cases hs : sanitizeString (.str (jsToString price)) 20 = ""
    · rw [hs]
      rfl
    · have ht : truthy (JsVal.str (sanitizeString (.str (jsToString price)) 20))
          = true := by
        rw [truthy]
        simpa using hs
      rw [sanPrice, if_pos ht]
      rw [show jsToString (JsVal.str (sanitizeString (.str (jsToString price)) 20))
          = sanitizeString (.str (jsToString price)) 20 from rfl]
      rw [sanitizeString_twice (.str (jsToString price)) 20 (strTC_str h)]
  · have hq : sanPrice price = .str "" := by rw [sanPrice, if_neg hc]
    rw [hq]
    rfl

theorem sanNameList_fixed (v : JsVal)
    (h : (match sanNameList v with
      | .arr l => l.all strTC
      | _ => true) = true) :
    sanNameList (sanNameList v) = sanNameList v := by
  cases v with
  | arr l0 =>
    rw [sanNameList] at h ⊢
    rw [sanNameList]
    have hlen : ((l0.take 10).map fun n => JsVal.str (sanitizeString n 100)).length
        ≤ 10 := by
      rw [List.length_map]
      exact List.length_take_le 10 l0
    rw [List.take_of_length_le hlen]
    have hall := List.all_eq_true.mp h
    have hmap : ((l0.take 10).map fun n => JsVal.str (sanitizeString n 100)).map
        (fun n => JsVal.str (sanitizeString n 100)) =
        (l0.take 10).map fun n => JsVal.str (sanitizeString n 100) := by
      refine map_id_of_mem ?_
      intro e he
      obtain ⟨n0, _, hne⟩ := List.mem_map.mp he
      have hTCe := hall e he
      rw [← hne] at hTCe ⊢
      show JsVal.str (sanitizeString (.str (sanitizeString n0 100)) 100) = _
      rw [sanitizeString_twice n0 100 (strTC_str hTCe)]
    rw [hmap]
  | null => rfl
  | undefined => rfl
  | bool b => rfl
  | num n => rfl
  | str s => rfl
  | obj fs => rfl

theorem sanitizedItem_description_fixed (i : JsVal)
    (h : strTC (.str (sanitizeString (rawItemName i) 500)) = true) :
    sanitizeString (rawItemName (sanitizedItem i)) 500
      = sanitizeString (rawItemName i) 500 := by
  have hdesc : index (sanitizedItem i) "description"
      = .str (sanitizeString (rawItemName i) 500) := rfl
  have hitem : index (sanitizedItem i) "item" = .undefined := rfl
  have hname : index (sanitizedItem i) "name" = .undefined := rfl
  rw [rawItemName, hdesc, hitem, hname]
  by_cases hs : sanitizeString (rawItemName i) 500 = ""
  · have ht : truthy (JsVal.str (sanitizeString (rawItemName i) 500)) = false := by
      rw [truthy]
      simpa using hs
    rw [ht]
    simp only [Bool.false_eq_true, if_false, show truthy JsVal.undefined = false
      from rfl]
    rw [sanitizeString_empty, hs]
  · have ht : truthy (JsVal.str (sanitizeString (rawItemName i) 500)) = true := by
      rw [truthy]
      simpa using hs
    rw [ht]
    simp only [if_true]
    exact sanitizeString_twice (rawItemName i) 500 (strTC_str h)

theorem sanitizedItem_fixed (i : JsVal) (hTC : itemTC (sanitizedItem i) = true) :
    sanitizedItem (sanitizedItem i) = sanitizedItem i := by
  rw [itemTC, Bool.and_eq_true, Bool.and_eq_true, Bool.and_eq_true,
    Bool.and_eq_true, Bool.and_eq_true] at hTC
  obtain ⟨⟨⟨⟨⟨h1, h2⟩, h3⟩, h4⟩, h5⟩, h6⟩ := hTC
  have e1 : index (sanitizedItem i) "description"
      = .str (sanitizeString (rawItemName i) 500) := rfl
  have e2 : index (sanitizedItem i) "priority"
      = sanPriority (index i "priority") := rfl
  have e3 : index (sanitizedItem i) "price" = sanPrice (index i "price") := rfl
  have e4 : index (sanitizedItem i) "notes"
      = sanOptStr (index i "notes") 1000 := rfl
  have e5 : index (sanitizedItem i) "details"
      = sanOptStr (index i "details") 1000 := rfl
  have e6 : index (sanitizedItem i) "claimedBy"
      = sanNameList (index i "claimedBy") := rfl
  have e7 : index (sanitizedItem i) "purchased"
      = .bool (truthy (index i "purchased")) := rfl
  have e8 : index (sanitizedItem i) "splitWith"
      = sanNameList (index i "splitWith") := rfl
  rw [e1] at h1
  rw [e3] at h2
  rw [e4] at h3
  rw [e5] at h4
  rw [e6] at h5
  rw [e8] at h6
  conv_lhs => rw [sanitizedItem]
  rw [e2, e3, e4, e5, e6, e7, e8]
  rw [sanitizedItem_description_fixed i h1, sanPriority_idem, sanPrice_fixed _ h2,
    sanOptStr_fixed _ _ h3, sanOptStr_fixed _ _ h4, sanNameList_fixed _ h5,
    sanNameList_fixed _ h6]
  rfl


/-! ### Rebuilding the users map: second-application lemmas -/

theorem objInsert_length_le (fs : List (String × JsVal)) (k : String) (v : JsVal) :
    (objInsert fs k v).length ≤ fs.length + 1 := by
  induction fs with
  | nil => simp [objInsert]
  | cons q rest ih =>
    rw [objInsert]
    by_cases hq : q.1 = k
    · rw [if_pos hq]
      simp
    · rw [if_neg hq]
      simpa using Nat.succ_le_succ ih

theorem objInsert_key_mem {fs : List (String × JsVal)} {k a : String} {v : JsVal}
    (h : a ∈ (objInsert fs k v).map Prod.fst) :
    a ∈ fs.map Prod.fst ∨ a = k := by
  obtain ⟨p, hp, hpa⟩ := List.mem_map.mp h
  rcases objInsert_mem hp with hp | hp
  · exact Or.inl (List.mem_map.mpr ⟨p, hp, hpa⟩)
  · right
    rw [← hpa, hp]

theorem objInsert_keys_nodup {fs : List (String × JsVal)} {k : String} {v : JsVal}
    (h : (fs.map Prod.fst).Nodup) :
    ((objInsert fs k v).map Prod.fst).Nodup := by
  induction fs with
  | nil => simp [objInsert]
  | cons q rest ih =>
    rw [objInsert]
    by_cases hq : q.1 = k
    · rw [if_pos hq]
      simpa [← hq] using h
    · rw [if_neg hq]
      rw [List.map_cons, List.nodup_cons] at h ⊢
      refine ⟨fun hmem => ?_, ih h.2⟩
      rcases objInsert_key_mem hmem with hmem | hmem
      · exact h.1 hmem
      · exact hq hmem
    
theorem objInsert_append_fresh {fs : List (String × JsVal)} {k : String}
    {v : JsVal} (h : k ∉ fs.map Prod.fst) :
    objInsert fs k v = fs ++ [(k, v)] := by
  induction fs with
  | nil => rfl
  | cons q rest ih =>
    rw [List.map_cons] at h
    have hq1 : ¬ q.1 = k := by
      intro hq
      exact h (by rw [← hq]; exact List.mem_cons_self q.1 _)
    rw [objInsert, if_neg hq1, ih fun hm => h (List.mem_cons_of_mem q.1 hm)]
    rfl

theorem lookup_of_nodup :
    ∀ {fs : List (String × JsVal)} {k : String} {v : JsVal},
      (fs.map Prod.fst).Nodup → (k, v) ∈ fs → fs.lookup k = some v := by
  intro fs
  induction fs with
  | nil => intro k v _ hm; cases hm
  | cons q rest ih =>
    intro k v hnd hm
    rw [List.map_cons, List.nodup_cons] at hnd
    rcases List.mem_cons.mp hm with hm | hm
    · rw [← hm]
      simp [List.lookup]
    · have hk : k ≠ q.1 := by
        intro hk
        exact hnd.1 (hk ▸ List.mem_map.mpr ⟨(k, v), hm, rfl⟩)
      have hb : (k == q.1) = false := by simpa using hk
      rw [List.lookup, hb]
      exact ih hnd.2 hm

theorem mapExcept_id_of {l : List JsVal}
    (h : ∀ j ∈ l, sanitizeItem j = .ok j) :
    mapExcept sanitizeItem l = .ok l := by
  induction l with
  | nil => rfl
  | cons a as ih =>
    rw [mapExcept, h a (List.mem_cons_self a as),
      ih fun j hj => h j (List.mem_cons_of_mem a hj)]

/-- One step of `sanitizeUsersLoop` on a successful run: some allow-listed
items list is built and the loop continues on an `objInsert`-extended
accumulator. -/
theorem sanitizeUsersLoop_step {usersVal : JsVal} {uname : String}
    {rest : List String} {acc fs : List (String × JsVal)}
    (h : sanitizeUsersLoop usersVal (uname :: rest) acc = .ok fs) :
    ∃ itemsOut : List JsVal, itemsOut.length ≤ 100 ∧
      (∀ j ∈ itemsOut, ∃ i0, j = sanitizedItem i0) ∧
      sanitizeUsersLoop usersVal rest
        (objInsert acc (sanitizeString (.str uname) 100)
          (.obj [("items", .arr itemsOut)])) = .ok fs := by
  rw [sanitizeUsersLoop] at h
  cases hn : nullish (index usersVal uname) with
  | true => simp only [hn] at h; cases h
  | false =>
    simp only [hn, Bool.false_eq_true, if_false] at h
    cases hit : index (index usersVal uname) "items" with
    | arr l =>
      simp only [hit] at h
      cases hm : mapExcept sanitizeItem (l.take 100) with
      | error e => simp only [hm] at h; cases h
      | ok itemsOut =>
        simp only [hm] at h
        refine ⟨itemsOut, ?_, ?_, h⟩
        · have h1 := mapExcept_ok_length hm
          have h2 := List.length_take_le 100 l
          omega
        · intro j hj
          obtain ⟨i0, _, hfi⟩ := mapExcept_ok_mem hm j hj
          exact ⟨i0, (sanitizeItem_ok hfi).2⟩
    | null =>
      simp only [hit] at h
      exact ⟨[], by simp, fun j hj => absurd hj (List.not_mem_nil j), h⟩
    | undefined =>
      simp only [hit] at h
      exact ⟨[], by simp, fun j hj => absurd hj (List.not_mem_nil j), h⟩
    | bool b =>
      simp only [hit] at h
      exact ⟨[], by simp, fun j hj => absurd hj (List.not_mem_nil j), h⟩
    | num n0 =>
      simp only [hit] at h
      exact ⟨[], by simp, fun j hj => absurd hj (List.not_mem_nil j), h⟩
    | str s0 =>
      simp only [hit] at h
      exact ⟨[], by simp, fun j hj => absurd hj (List.not_mem_nil j), h⟩
    | obj fs0 =>
      simp only [hit] at h
      exact ⟨[], by simp, fun j hj => absurd hj (List.not_mem_nil j), h⟩

/-- Aggregate facts about a successful `sanitizeUsersLoop` run: result size,
key distinctness, and the shape of every produced entry. -/
theorem sanitizeUsersLoop_props (usersVal : JsVal) :
    ∀ (names : List String) (acc fs : List (String × JsVal)),
      sanitizeUsersLoop usersVal names acc = .ok fs →
      fs.length ≤ acc.length + names.length ∧
      ((acc.map Prod.fst).Nodup → (fs.map Prod.fst).Nodup) ∧
      ∀ p ∈ fs, p ∈ acc ∨
        ((∃ uname, p.1 = sanitizeString (.str uname) 100) ∧
          ∃ itemsOut : List JsVal, p.2 = .obj [("items", .arr itemsOut)] ∧
            itemsOut.length ≤ 100 ∧ ∀ j ∈ itemsOut, ∃ i0, j = sanitizedItem i0) := by
  intro names
  induction names with
  | nil =>
    intro acc fs h
    rw [sanitizeUsersLoop] at h
    injection h with h
    subst h
    exact ⟨by simp, fun hh => hh, fun p hp => Or.inl hp⟩
  | cons uname rest ih =>
    intro acc fs h
    obtain ⟨itemsOut, hlen, hjs, hloop⟩ := sanitizeUsersLoop_step h
    obtain ⟨ih1, ih2, ih3⟩ := ih _ _ hloop
    refine ⟨?_, ?_, ?_⟩
    · have h1 := objInsert_length_le acc (sanitizeString (.str uname) 100)
        (.obj [("items", .arr itemsOut)])
      rw [List.length_cons]
      omega
    · intro hnd
      exact ih2 (objInsert_keys_nodup hnd)
    · intro p hp
      rcases ih3 p hp with hin | hgood
      · rcases objInsert_mem hin with hin | heq
        · exact Or.inl hin
        · refine Or.inr ⟨⟨uname, by rw [heq]⟩, itemsOut, by rw [heq], hlen, hjs⟩
      · exact Or.inr hgood

/-- Replaying the loop over an already-sanitized users map rebuilds it
exactly: the keys re-sanitize to themselves, each entry is found by lookup,
and each items array maps to itself. -/
theorem sanitizeUsersLoop_rebuild (full : List (String × JsVal))
    (hnd : (full.map Prod.fst).Nodup) :
    ∀ (suffix pre : List (String × JsVal)),
      full = pre ++ suffix →
      (∀ p ∈ suffix, sanitizeString (.str p.1) 100 = p.1 ∧
        ∃ itemsOut : List JsVal, p.2 = .obj [("items", .arr itemsOut)] ∧
          itemsOut.length ≤ 100 ∧ mapExcept sanitizeItem itemsOut = .ok itemsOut) →
      sanitizeUsersLoop (.obj full) (suffix.map Prod.fst) pre = .ok full := by
  intro suffix
  induction suffix with
  | nil =>
    intro pre hfull _
    rw [List.map_nil, sanitizeUsersLoop, hfull, List.append_nil]
  | cons p rest ih =>
    intro pre hfull hfix
    obtain ⟨hkey, itemsOut, hpi, hilen, hmap⟩ := hfix p (List.mem_cons_self p rest)
    have hpmem : p ∈ full := by
      rw [hfull]
      exact List.mem_append_right pre (List.mem_cons_self p rest)
    have hlook : full.lookup p.1 = some p.2 := by
      have : (p.1, p.2) ∈ full := by
        simpa using hpmem
      exact lookup_of_nodup hnd this
    have hidx : index (.obj full) p.1 = p.2 := by
      rw [index_obj, hlook]
      rfl
    have hfresh : p.1 ∉ pre.map Prod.fst := by
      intro hmem
      rw [hfull, List.map_append, List.map_cons] at hnd
      have := (List.nodup_append.mp hnd).2.2
      exact this hmem (List.mem_cons_self p.1 _)
    have hnull : nullish p.2 = false := by
      rw [hpi]
      rfl
    have hitems : index p.2 "items" = .arr itemsOut := by
      rw [hpi]
      rfl
    have htake : itemsOut.take 100 = itemsOut := List.take_of_length_le hilen
    rw [List.map_cons, sanitizeUsersLoop, hidx, hnull]
    simp only [Bool.false_eq_true, if_false, hitems, htake, hmap, hkey]
    rw [objInsert_append_fresh hfresh]
    have hval : (p.1, JsVal.obj [("items", JsVal.arr itemsOut)]) = p := by
      rw [← hpi]
    rw [hval]
    exact ih (pre ++ [p]) (by rw [hfull, List.append_assoc]; rfl)
      fun q hq => hfix q (List.mem_cons_of_mem p hq)


/-- Everything a successful `sanitizeGroupData` run guarantees about its
output: overall shape, users-map size and key distinctness, key provenance
and per-item provenance. -/
theorem sanitizeGroupData_ok_full {d out : JsVal}
    (h : sanitizeGroupData d = .ok out) :
    ∃ usersOut : List (String × JsVal),
      out = sanitizedDoc (index d "groupName") (index d "holiday")
        (index d "eventDate") (index d "createdBy") usersOut ∧
      usersOut.length ≤ 50 ∧ (usersOut.map Prod.fst).Nodup ∧
      (∀ p ∈ usersOut, ∃ uname, p.1 = sanitizeString (.str uname) 100) ∧
      ∀ p ∈ usersOut, ∃ itemsOut : List JsVal,
        p.2 = .obj [("items", .arr itemsOut)] ∧ itemsOut.length ≤ 100 ∧
        ∀ j ∈ itemsOut, ∃ i0, j = sanitizedItem i0 := by
  rw [sanitizeGroupData] at h
  cases hn : nullish d with
  | true => rw [hn] at h; simp at h
  | false =>
    rw [hn] at h
    simp only [Bool.false_eq_true, if_false] at h
    by_cases hc : (truthy (index d "users") && typeofObject (index d "users")) = true
    · rw [if_pos hc] at h
      cases hloop : sanitizeUsersLoop (index d "users")
          ((objKeys (index d "users")).take 50) [] with
      | error e => rw [hloop] at h; simp at h
      | ok usersOut =>
        rw [hloop] at h
        injection h with h
        obtain ⟨hlen, hnd, hmem⟩ := sanitizeUsersLoop_props _ _ _ _ hloop
        refine ⟨usersOut, h.symm, ?_, hnd (by simp), ?_, ?_⟩
        · have h50 := List.length_take_le 50 (objKeys (index d "users"))
          simp only [List.length_nil] at hlen
          omega
        · intro p hp
          rcases hmem p hp with hin | ⟨⟨uname, hk⟩, _⟩
          · cases hin
          · exact ⟨uname, hk⟩
        · intro p hp
          rcases hmem p hp with hin | ⟨_, hgood⟩
          · cases hin
          · exact hgood
    · rw [if_neg hc] at h
      injection h with h
      exact ⟨[], h.symm, by simp, by simp,
        fun p hp => absurd hp (List.not_mem_nil p),
        fun p hp => absurd hp (List.not_mem_nil p)⟩

/-- A sanitized document with no trailing whitespace at any string position
sanitizes to itself. -/
theorem sanitizedDoc_refix (gn hol ed cb : JsVal)
    (usersOut : List (String × JsVal))
    (hlen50 : usersOut.length ≤ 50)
    (hnd : (usersOut.map Prod.fst).Nodup)
    (hkeys : ∀ p ∈ usersOut, ∃ uname, p.1 = sanitizeString (.str uname) 100)
    (hitems : ∀ p ∈ usersOut, ∃ itemsOut : List JsVal,
      p.2 = .obj [("items", .arr itemsOut)] ∧ itemsOut.length ≤ 100 ∧
      ∀ j ∈ itemsOut, ∃ i0, j = sanitizedItem i0)
    (hTC : docTC (sanitizedDoc gn hol ed cb usersOut) = true) :
    sanitizeGroupData (sanitizedDoc gn hol ed cb usersOut)
      = .ok (sanitizedDoc gn hol ed cb usersOut) := by
  have hgn : index (sanitizedDoc gn hol ed cb usersOut) "groupName"
      = .str (sanitizeString gn 100) := rfl
  have hcb : index (sanitizedDoc gn hol ed cb usersOut) "createdBy"
      = sanCreatedBy cb := rfl
  have hhol : index (sanitizedDoc gn hol ed cb usersOut) "holiday"
      = sanHoliday hol := rfl
  have hed : index (sanitizedDoc gn hol ed cb usersOut) "eventDate"
      = sanEventDate ed := rfl
  have hus : index (sanitizedDoc gn hol ed cb usersOut) "users"
      = .obj usersOut := rfl
  rw [docTC, Bool.and_eq_true, Bool.and_eq_true] at hTC
  obtain ⟨⟨hTCg, hTCc⟩, hTCu⟩ := hTC
  rw [hgn] at hTCg
  rw [hcb] at hTCc
  rw [usersEntriesOf_sanitizedDoc, List.all_eq_true] at hTCu
  have hfix : ∀ p ∈ usersOut, sanitizeString (.str p.1) 100 = p.1 ∧
      ∃ itemsOut : List JsVal, p.2 = .obj [("items", .arr itemsOut)] ∧
        itemsOut.length ≤ 100 ∧ mapExcept sanitizeItem itemsOut = .ok itemsOut := by
    intro p hp
    obtain ⟨uname, hk⟩ := hkeys p hp
    obtain ⟨itemsOut, hpi, hilen, hjs⟩ := hitems p hp
    have hTCp := hTCu p hp
    rw [userTC, Bool.and_eq_true] at hTCp
    obtain ⟨hTCk, hTCi⟩ := hTCp
    have hil : itemsListOf p.2 = itemsOut := by
      rw [hpi]
      rfl
    rw [hil, List.all_eq_true] at hTCi
    constructor
    · rw [hk] at hTCk ⊢
      exact sanitizeString_twice (.str uname) 100 (eq_of_beq hTCk)
    · refine ⟨itemsOut, hpi, hilen, mapExcept_id_of ?_⟩
      intro j hj
      obtain ⟨i0, hji⟩ := hjs j hj
      have hTCj := hTCi j hj
      rw [hji] at hTCj
      have hnj : nullish j = false := by rw [hji]; rfl
      rw [sanitizeItem, hnj]
      simp only [Bool.false_eq_true, if_false]
      rw [hji, sanitizedItem_fixed i0 hTCj]
  have hloop := sanitizeUsersLoop_rebuild usersOut hnd usersOut [] rfl hfix
  rw [sanitizeGroupData,
    show nullish (sanitizedDoc gn hol ed cb usersOut) = false from rfl]
  simp only [Bool.false_eq_true, if_false]
  have hc : (truthy (index (sanitizedDoc gn hol ed cb usersOut) "users") &&
      typeofObject (index (sanitizedDoc gn hol ed cb usersOut) "users")) = true := by
    rw [hus]
    rfl
  rw [if_pos hc]
  have hloopkeys : (objKeys (index (sanitizedDoc gn hol ed cb usersOut)
      "users")).take 50 = usersOut.map Prod.fst := by
    rw [hus]
    show ((usersOut.map Prod.fst).take 50) = usersOut.map Prod.fst
    exact List.take_of_length_le (by simpa using hlen50)
  rw [hloopkeys, hus]
  simp only [hloop]
  rw [hgn, hhol, hed, hcb]
  simp only [sanitizedDoc]
  rw [sanitizeString_twice gn 100 (strTC_str hTCg), sanHoliday_idem,
    sanEventDate_idem, sanCreatedBy_fixed cb hTCc]


/-! ## C3: sanitization idempotence -/

def c3doc : JsVal :=
  .obj [("groupName", .str "g"),
    ("users", .obj [("a", .obj [("items", .arr [.obj [
      ("description", .str "x"),
      ("price", .str "0123456789012345678 9")]])])])]

def c3once : JsVal :=
  .obj [("groupName", .str "g"), ("holiday", .str "Christmas"),
    ("eventDate", .str ""), ("createdBy", .str ""),
    ("users", .obj [("a", .obj [("items", .arr [.obj [
      ("description", .str "x"),
      ("priority", .str "medium"),
      ("price", .str "0123456789012345678 "),
      ("notes", .str ""), ("details", .str ""),
      ("claimedBy", .arr []), ("purchased", .bool false),
      ("splitWith", .arr [])]])])])]

def c3twice : JsVal :=
  .obj [("groupName", .str "g"), ("holiday", .str "Christmas"),
    ("eventDate", .str ""), ("createdBy", .str ""),
    ("users", .obj [("a", .obj [("items", .arr [.obj [
      ("description", .str "x"),
      ("priority", .str "medium"),
      ("price", .str "0123456789012345678"),
      ("notes", .str ""), ("details", .str ""),
      ("claimedBy", .arr []), ("purchased", .bool false),
      ("splitWith", .arr [])]])])])]

/-- C3 (counterexample): a document that passes validation with no errors,
whose first sanitization truncates a 21-character price to 20 characters and
thereby leaves a trailing space, which the second sanitization trims —
`sanitizeGroupData` is not idempotent on all validated documents. -/
theorem C3_idempotence_counterexample :
    validateGroupData c3doc = .ok [] ∧
    sanitizeGroupData c3doc = .ok c3once ∧
    sanitizeGroupData c3once = .ok c3twice ∧
    c3once ≠ c3twice :=
  ⟨rfl, rfl, rfl, fun h => absurd (congrArg (fun v =>
      asStr (index ((itemsListOf (((usersEntriesOf v).lookup "a").getD
        JsVal.null)).getD 0 JsVal.null) "price")) h) (by decide)⟩

/-- C3 (amended): sanitization is idempotent on every sanitizer output none
of whose string positions carries trailing whitespace (`docTC`); the
unrestricted claim fails because length truncation happens after trimming
and can expose a new trailing space. -/
theorem C3_sanitize_idempotent_amended (d out : JsVal)
    (hsan : sanitizeGroupData d = .ok out)
    (hTC : docTC out = true) :
    sanitizeGroupData out = .ok out := by
  obtain ⟨usersOut, hout, hlen50, hnd, hkeys, hitems⟩ :=
    sanitizeGroupData_ok_full hsan
  rw [hout] at hTC ⊢
  exact sanitizedDoc_refix _ _ _ _ usersOut hlen50 hnd hkeys hitems hTC

def c3wD : JsVal :=
  .obj [("groupName", .str "g"),
    ("users", .obj [("a", .obj [("items", .arr [.obj [
      ("description", .str "x")]])])])]

def c3wOut : JsVal :=
  .obj [("groupName", .str "g"), ("holiday", .str "Christmas"),
    ("eventDate", .str ""), ("createdBy", .str ""),
    ("users", .obj [("a", .obj [("items", .arr [.obj [
      ("description", .str "x"),
      ("priority", .str "medium"),
      ("price", .str ""),
      ("notes", .str ""), ("details", .str ""),
      ("claimedBy", .arr []), ("purchased", .bool false),
      ("splitWith", .arr [])]])])])]

/-- C3 (witness): the amended idempotence theorem applied at a concrete
document whose sanitizer output the second run reproduces exactly. -/
theorem C3_sanitize_idempotent_amended_witness :
    sanitizeGroupData c3wD = .ok c3wOut ∧ docTC c3wOut = true ∧
    sanitizeGroupData c3wOut = .ok c3wOut :=
  ⟨rfl, rfl, C3_sanitize_idempotent_amended c3wD c3wOut rfl rfl⟩

end GroupGifting
